import Mathlib

/-!
# Verification of the Snake-Multiplayer server

A shallow embedding of the authoritative game server found in
`src/src/snake_server/` (files `enums.py`, `session.py`, `connection.py`,
`app.py`).  Python dictionaries (which preserve insertion order) are modelled
as ordered association lists; Python `set`s as duplicate-free lists whose
iteration order is an arbitrary but fixed choice (the properties proved below
do not depend on that order); the `random` module is modelled by an explicit
function `rand : Nat → Nat` together with a counter that advances on each
draw; exceptions (`KeyError` from `dict`/`set` element removal and missing
keys, `IndexError` from sequence indexing, `RuntimeError` from
`Session.connect`) are modelled by `Option`, with `none` meaning the Python
code raises.  CPython `float` division in `_generate_player_chunks` is
modelled by exact rational arithmetic; at the concrete values considered here
(the default 40×30 grid with at most a handful of players) the two agree.
-/

namespace Snake

/-- Grid position `(x, y)`; may leave the grid (wall deaths look at it). -/
abbrev Pos : Type := Int × Int

/-! ## `enums.py` -/

/-- `Direction` from `enums.py`. -/
inductive Direction : Type
  | UP
  | DOWN
  | RIGHT
  | LEFT
deriving DecidableEq, Repr

/-- The wire value of a direction (`Direction(...)` enum values 1–4). -/
def Direction.value : Direction → Int
  | .UP => 1
  | .DOWN => 2
  | .RIGHT => 3
  | .LEFT => 4

/-- `Direction(value)` construction; `none` models the `ValueError` raised
for a value outside 1–4. -/
def Direction.ofValue (v : Int) : Option Direction :=
  if v = 1 then some .UP
  else if v = 2 then some .DOWN
  else if v = 3 then some .RIGHT
  else if v = 4 then some .LEFT
  else none

/-- `Direction.offset` from `enums.py`. -/
def Direction.offset : Direction → Int × Int
  | .UP => (0, -1)
  | .DOWN => (0, 1)
  | .RIGHT => (1, 0)
  | .LEFT => (-1, 0)

/-- `Direction.opposite` from `enums.py`. -/
def Direction.opposite : Direction → Direction
  | .UP => .DOWN
  | .DOWN => .UP
  | .RIGHT => .LEFT
  | .LEFT => .RIGHT

/-! ## `session.py` — data model -/

/-- `SessionPlayer` from `session.py`.  The connection back-pointer is
replaced by the stable `key` (`Connection.key`), which is exactly what the
source uses for identity (`__eq__` compares `conn is other.conn`). -/
structure SessionPlayer where
  key : String
  name : String
  chunks : List Pos
  direction : Direction
  lastTailPiece : Option Pos
deriving DecidableEq, Repr

/-- `SessionPlayer.to_dict()` — the wire form `<p>` of a player. -/
structure WirePlayer where
  key : String
  name : String
  chunks : List Pos
  direction : Int
deriving DecidableEq, Repr

/-- `SessionPlayer.to_dict` from `session.py`. -/
def SessionPlayer.toDict (p : SessionPlayer) : WirePlayer :=
  ⟨p.key, p.name, p.chunks, p.direction.value⟩

/-- The configuration held on `App` (`app.py`): grid size, speed, initial
chunk amount.  Grid dimensions default to 40×30. -/
structure AppCfg where
  gridWidth : Int := 40
  gridHeight : Int := 30
  gameSpeed : Nat := 1
  initialChunkAmount : Nat := 4
deriving DecidableEq, Repr

/-- `Session` from `session.py`.  `players` is the insertion-ordered
dictionary of all players ever admitted (the `SessionPlayer` data itself is
stored here, once, mirroring the shared mutable objects of the source);
`alivePlayers` is the insertion-ordered list of keys of `self.alive_players`;
`currentDeaths` holds the keys of `self._current_deaths` in append order;
`leaderboard` holds places as lists of keys. -/
structure Session where
  code : String
  ownerKey : String
  players : List SessionPlayer
  alivePlayers : List String
  currentDeaths : List String
  leaderboard : List (List String)
  apples : List Pos
  running : Bool
  tick : Nat
deriving DecidableEq, Repr

/-- Lookup in the `players` dictionary (`self.players[key]`). -/
def dictFind (l : List SessionPlayer) (k : String) : Option SessionPlayer :=
  l.find? (fun p => p.key == k)

/-- Python `dict` assignment `d[p.key] = p`: replaces in place when the key
exists (a dict keeps the original insertion position), else appends. -/
def dictSet (l : List SessionPlayer) (p : SessionPlayer) : List SessionPlayer :=
  if l.any (fun q => q.key == p.key) then
    l.map (fun q => if q.key == p.key then p else q)
  else l ++ [p]

/-- Update the entry for `k` in place (mutation of the shared player
object). -/
def dictUpdate (l : List SessionPlayer) (k : String)
    (f : SessionPlayer → SessionPlayer) : List SessionPlayer :=
  l.map (fun q => if q.key == k then f q else q)

/-- Key-list counterpart of `dict` assignment for `alive_players`. -/
def keySet (l : List String) (k : String) : List String :=
  if k ∈ l then l else l ++ [k]

/-- `len(p.chunks)` of the player stored under key `k`; the default `0` is
never reached in states where the source runs (every key handled comes from
the `players` dict). -/
def Session.chunkLen (s : Session) (k : String) : Nat :=
  (dictFind s.players k).elim 0 (fun p => p.chunks.length)

/-- `self.alive_players.values()` in iteration order.  In the source the
dictionary stores the objects themselves, so the lookup cannot fail; here the
(unreachable) dangling case is dropped. -/
def Session.alivePlayersList (s : Session) : List SessionPlayer :=
  s.alivePlayers.filterMap (dictFind s.players)

/-- `self.get_names()` from `session.py` (as a membership test target). -/
def Session.getNames (s : Session) : List String :=
  s.players.map (fun p => p.name)

/-- Modelled from the spec: `Session.is_name_taken` is called by
`Connection.handle_join` (`connection.py` line 152) but its definition is
missing from the source snapshot, which only contains `Session.get_names`.
Following the spec ("validate name free", "Within a session, `name` is unique
across `players`", rejection with `player_name_already_taken`), it is
modelled as membership of the requested name in `get_names()`. -/
def Session.isNameTaken (s : Session) (name : String) : Bool :=
  s.getNames.contains name

/-- Move one occurrence of key `k` from `alive_players` to `current_deaths`:
`self._current_deaths.append(self.alive_players.pop(key))`.  `none` models
the `KeyError` when `k` is not alive. -/
def Session.popAlive (s : Session) (k : String) : Option Session :=
  if k ∈ s.alivePlayers then
    some { s with alivePlayers := s.alivePlayers.erase k,
                  currentDeaths := s.currentDeaths ++ [k] }
  else none

/-- Run a key-preserving update over every alive player, in alive iteration
order (the pattern of `_update_positions` and `_handle_tail_self_cutting`).
`none` propagates a raised exception from `f`, or the unreachable missing-key
case. -/
def Session.mapAlive (s : Session)
    (f : SessionPlayer → Option SessionPlayer) : Option Session :=
  s.alivePlayers.foldlM
    (fun t k =>
      match dictFind t.players k with
      | none => none
      | some p =>
        match f p with
        | none => none
        | some p' => some { t with players := dictUpdate t.players k (fun _ => p') })
    s

/-! ## `session.py` — movement and collisions -/

/-- `SessionPlayer.move` from `session.py`: prepend `head + offset`; clear
`last_tail_piece`; if the **new** head sits on an apple, record the popped
tail in `last_tail_piece`, else just pop the tail.  (Note: `move` does *not*
touch the apple set.)  `none` models the `IndexError` of `self.head` on an
empty deque. -/
def SessionPlayer.move (apples : List Pos) (p : SessionPlayer) : Option SessionPlayer :=
  match p.chunks with
  | [] => none
  | (hx, hy) :: rest =>
    let off := p.direction.offset
    let newHead : Pos := (hx + off.1, hy + off.2)
    let c1 : List Pos := newHead :: (hx, hy) :: rest
    if newHead ∈ apples then
      some { p with chunks := c1.dropLast, lastTailPiece := c1.getLast? }
    else
      some { p with chunks := c1.dropLast, lastTailPiece := none }

/-- `Session._update_positions`: movement happens only when
`tick % game_speed == 0`; returns the updated session and whether movement
happened.  (`game_speed` is a positive configuration value; `0` would be a
`ZeroDivisionError` in the source and is not modelled.) -/
def Session.updatePositions (cfg : AppCfg) (s : Session) : Option (Session × Bool) :=
  if s.tick % cfg.gameSpeed ≠ 0 then some (s, false)
  else
    match s.mapAlive (SessionPlayer.move s.apples) with
    | none => none
    | some s' => some (s', true)

/-- `Session._handle_wall_deaths`: collect alive players whose head lies
outside `[0,W) × [0,H)`, then move each to `current_deaths`. -/
def Session.handleWallDeaths (cfg : AppCfg) (s : Session) : Option Session := do
  let toRemove ← s.alivePlayers.foldlM
    (fun (acc : List String) k =>
      match dictFind s.players k with
      | none => none
      | some p =>
        match p.chunks with
        | [] => none
        | (x, y) :: _ =>
          if x < 0 ∨ x ≥ cfg.gridWidth ∨ y < 0 ∨ y ≥ cfg.gridHeight then
            some (acc ++ [k])
          else some acc)
    []
  toRemove.foldlM Session.popAlive s

/-- The per-player body of `Session._handle_tail_self_cutting`: if
`last_tail_piece == head`, just clear it; else look for the head at index
`≥ 1` in the player's own chunks and truncate there (clearing
`last_tail_piece`). -/
def SessionPlayer.selfCut (p : SessionPlayer) : Option SessionPlayer :=
  match p.chunks with
  | [] => none
  | h :: rest =>
    if p.lastTailPiece = some h then
      some { p with lastTailPiece := none }
    else
      match rest.indexOf? h with
      | none => some p
      | some i =>
        some { p with lastTailPiece := none, chunks := (h :: rest).take (i + 1) }

/-- `Session._handle_tail_self_cutting`. -/
def Session.handleTailSelfCutting (s : Session) : Option Session :=
  s.mapAlive SessionPlayer.selfCut

/-- `_choose_losers` from `session.py`: from a non-empty candidate list, the
longest player survives (ties broken by `random.choice`, modelled by one draw
of `rand` at counter `c`); every other candidate's key is yielded, in
candidate order.  Returns the loser keys and the advanced counter. -/
def chooseLosers (rand : Nat → Nat) (c : Nat) (cands : List SessionPlayer) :
    List String × Nat :=
  match cands with
  | [] => ([], c)
  | [p] => ([p.key], c)
  | p :: _ :: _ =>
    let m := (cands.map (fun q => q.chunks.length)).foldl max 0
    let winners := cands.filter (fun q => q.chunks.length == m)
    let winner := winners.getD (rand c % winners.length) p
    (((cands.filter (fun q => q.key != winner.key)).map (fun q => q.key)), c + 1)

/-- `itertools.combinations(l, 2)` in the order the source iterates. -/
def listPairs {α : Type} : List α → List (α × α)
  | [] => []
  | a :: rest => rest.map (fun b => (a, b)) ++ listPairs rest

/-- Python `set.update` on a list model: append elements not yet present. -/
def setUnion (l : List String) (ks : List String) : List String :=
  l ++ ks.filter (fun k => k ∉ l)

/-- The guard of `_handle_tail_collisions`, with Python's short-circuit
evaluation order: `p1.head != p2.head and (p1.chunks[0] != p2.chunks[1] or
p2.chunks[0] != p1.chunks[1])`.  `none` models an `IndexError`. -/
def tailCollisionGuard (p1 p2 : SessionPlayer) : Option Bool := do
  let h1 ← p1.chunks.head?
  let h2 ← p2.chunks.head?
  if h1 = h2 then pure false
  else do
    let s2 ← p2.chunks[1]?
    if h1 ≠ s2 then pure true
    else do
      let s1 ← p1.chunks[1]?
      pure (h2 ≠ s1)

/-- `Session._handle_tail_collisions`: walk all unordered alive pairs,
skipping pairs touching an earlier loser; for qualifying pairs collect the
players whose head lies in the other's chunks and let `_choose_losers` pick;
finally move every loser from `alive_players` to `current_deaths`. -/
def Session.handleTailCollisions (rand : Nat → Nat) (s : Session) (c : Nat) :
    Option (Session × Nat) := do
  let res ← (listPairs s.alivePlayersList).foldlM
    (fun (acc : List String × Nat) pr => do
      let p1 := pr.1
      let p2 := pr.2
      if p1.key ∈ acc.1 ∨ p2.key ∈ acc.1 then pure acc
      else do
        let g ← tailCollisionGuard p1 p2
        if g then do
          let h1 ← p1.chunks.head?
          let h2 ← p2.chunks.head?
          let cands :=
            (if h1 ∈ p2.chunks then [p1] else []) ++
            (if h2 ∈ p1.chunks then [p2] else [])
          let cl := chooseLosers rand acc.2 cands
          pure (setUnion acc.1 cl.1, cl.2)
        else pure acc)
    (([] : List String), c)
  let s' ← res.1.foldlM Session.popAlive s
  pure (s', res.2)

/-- `Session._handle_head_overlap_collisions`: bucket alive players by head
(first-seen order, as `defaultdict` insertion order); in every bucket of two
or more, `_choose_losers` picks the survivors and the rest are popped
immediately. -/
def Session.handleHeadOverlapCollisions (rand : Nat → Nat) (s : Session) (c : Nat) :
    Option (Session × Nat) := do
  let buckets ← s.alivePlayersList.foldlM
    (fun (acc : List (Pos × List SessionPlayer)) p => do
      let h ← p.chunks.head?
      if acc.any (fun b => b.1 == h) then
        pure (acc.map (fun b => if b.1 == h then (b.1, b.2 ++ [p]) else b))
      else pure (acc ++ [(h, [p])]))
    []
  buckets.foldlM
    (fun (acc : Session × Nat) b =>
      if b.2.length > 1 then do
        let cl := chooseLosers rand acc.2 b.2
        let s' ← cl.1.foldlM Session.popAlive acc.1
        pure (s', cl.2)
      else pure acc)
    (s, c)

/-- The guard of `_handle_head_on_collisions`, with Python's short-circuit
order: `p1.chunks[0] == p2.chunks[1] and p2.chunks[0] == p1.chunks[1]`. -/
def headOnGuard (p1 p2 : SessionPlayer) : Option Bool := do
  let h1 ← p1.chunks.head?
  let s2 ← p2.chunks[1]?
  if h1 ≠ s2 then pure false
  else do
    let h2 ← p2.chunks.head?
    let s1 ← p1.chunks[1]?
    pure (h2 = s1)

/-- `Session._handle_head_on_collisions`. -/
def Session.handleHeadOnCollisions (rand : Nat → Nat) (s : Session) (c : Nat) :
    Option (Session × Nat) := do
  let res ← (listPairs s.alivePlayersList).foldlM
    (fun (acc : List String × Nat) pr => do
      let p1 := pr.1
      let p2 := pr.2
      if p1.key ∈ acc.1 ∨ p2.key ∈ acc.1 then pure acc
      else do
        let g ← headOnGuard p1 p2
        if g then do
          let cl := chooseLosers rand acc.2 [p1, p2]
          pure (setUnion acc.1 cl.1, cl.2)
        else pure acc)
    (([] : List String), c)
  let s' ← res.1.foldlM Session.popAlive s
  pure (s', res.2)

/-- `Session._handle_collision_deaths` (the three passes in order). -/
def Session.handleCollisionDeaths (rand : Nat → Nat) (s : Session) (c : Nat) :
    Option (Session × Nat) := do
  let r1 ← s.handleTailCollisions rand c
  let r2 ← r1.1.handleHeadOverlapCollisions rand r1.2
  r2.1.handleHeadOnCollisions rand r2.2

/-- `Session._handle_apple_eating`: first, for every alive player with a
recorded `last_tail_piece`, the source executes
`self.apples.remove(player.last_tail_piece)` — removing the *tail piece's*
position from the apple set (`none` models the `KeyError` when that position
is not an apple) — and appends the piece back to the chunks; then a
simplified last-piece-only tail-collision pass runs. -/
def Session.handleAppleEating (rand : Nat → Nat) (s : Session) (c : Nat) :
    Option (Session × Nat) := do
  let s1 ← s.alivePlayers.foldlM
    (fun (t : Session) k =>
      match dictFind t.players k with
      | none => none
      | some p =>
        match p.lastTailPiece with
        | none => some t
        | some piece =>
          if piece ∈ t.apples then
            some { t with
              apples := t.apples.erase piece,
              players := dictUpdate t.players k
                (fun q => { q with chunks := q.chunks ++ [piece], lastTailPiece := none }) }
          else none)
    s
  let res ← (listPairs s1.alivePlayersList).foldlM
    (fun (acc : List String × Nat) pr => do
      let p1 := pr.1
      let p2 := pr.2
      if p1.key ∈ acc.1 ∨ p2.key ∈ acc.1 then pure acc
      else do
        let h1 ← p1.chunks.head?
        let t2 ← p2.chunks.getLast?
        let h2 ← p2.chunks.head?
        let t1 ← p1.chunks.getLast?
        let cands :=
          (if h1 = t2 then [p1] else []) ++
          (if h2 = t1 then [p2] else [])
        let cl := chooseLosers rand acc.2 cands
        pure (setUnion acc.1 cl.1, cl.2))
    (([] : List String), c)
  let s2 ← res.1.foldlM Session.popAlive s1
  pure (s2, res.2)

/-- `Session._generate_apples`: when the apple set is empty, draw random
cells (`randrange(w)`, `randrange(h)`: two counter draws per attempt) until
one misses every alive player's chunks; `fuel` bounds the unbounded source
loop, `none` meaning it did not finish within `fuel` attempts. -/
def Session.generateApples (cfg : AppCfg) (rand : Nat → Nat) (fuel : Nat)
    (s : Session) (c : Nat) : Option (Session × Nat) :=
  if s.apples ≠ [] then some (s, c)
  else
    let taken : List Pos :=
      (s.alivePlayersList.foldl (fun acc p => acc ++ p.chunks) []) ++ s.apples
    go taken fuel c
where
  go (taken : List Pos) : Nat → Nat → Option (Session × Nat)
    | 0, _ => none
    | f + 1, cc =>
      let pos : Pos := (((rand cc % cfg.gridWidth.toNat : Nat) : Int),
                        ((rand (cc + 1) % cfg.gridHeight.toNat : Nat) : Int))
      if pos ∈ taken then go taken f (cc + 2)
      else some ({ s with apples := s.apples ++ [pos] }, cc + 2)

/-! ## `session.py` — leaderboard -/

/-- Stable insertion used to model Python's stable `list.sort`: insert `a`
before the first element `b` with `le a b`. -/
def stableInsert {α : Type} (le : α → α → Bool) (a : α) : List α → List α
  | [] => [a]
  | b :: bs => if le a b then a :: b :: bs else b :: stableInsert le a bs

/-- A stable sort (the embedding of `list.sort(key=...)`): equal elements
keep their original relative order. -/
def stableSort {α : Type} (le : α → α → Bool) (l : List α) : List α :=
  l.foldr (stableInsert le) []

/-- `itertools.groupby`: split a list into maximal runs of consecutive
elements equal under `eqv`. -/
def groupRuns {α : Type} (eqv : α → α → Bool) : List α → List (List α)
  | [] => []
  | a :: rest =>
    match groupRuns eqv rest with
    | [] => [[a]]
    | [] :: gs => [a] :: [] :: gs
    | (b :: g) :: gs =>
      if eqv a b then (a :: b :: g) :: gs else [a] :: (b :: g) :: gs

/-- `Session._update_leaderboard`: when there are pending deaths, sort them
ascending by chunk length (stably), group consecutive equal lengths into
places, append the places to the leaderboard and clear `current_deaths`. -/
def Session.updateLeaderboard (s : Session) : Session :=
  if s.currentDeaths.isEmpty then s
  else
    let sorted := stableSort (fun k1 k2 => s.chunkLen k1 ≤ s.chunkLen k2) s.currentDeaths
    let groups := groupRuns (fun k1 k2 => s.chunkLen k1 == s.chunkLen k2) sorted
    { s with leaderboard := s.leaderboard ++ groups, currentDeaths := [] }

/-! ## `session.py` — start, tick loop, finish -/

/-- `[a, a+1, ..., b-1]` over integers (the `range(y_start, y_stop)` of the
source). -/
def intRange (a b : Int) : List Int :=
  (List.range (b - a).toNat).map (fun i => a + (i : Int))

/-- `Session._generate_player_chunks`: place alive player `i` (1-indexed) at
`x = int(W / (N+1) * i)` — the source computes `distance = W / (N+1)` as a
CPython float and truncates `distance * i`; with exact arithmetic the result
is `⌊W·i / (N+1)⌋`, here `Int.ediv (W·i) (N+1)`, which coincides with the
float computation at the grid sizes and player counts in question — and give
it a vertical strip of `initial_chunk_amount` cells from `H//2 - amount//2`
up to but excluding `H//2 + amount//2 + amount%2`, appended top to bottom
(so the first chunk — the head — is the topmost cell). -/
def Session.generatePlayerChunks (cfg : AppCfg) (s : Session) : Session :=
  let n := s.alivePlayers.length
  let yCenter : Int := Int.ediv cfg.gridHeight 2
  let amt := cfg.initialChunkAmount
  let yStart : Int := yCenter - (amt / 2 : Nat)
  let yStop : Int := yCenter + (amt / 2 : Nat) + (amt % 2 : Nat)
  let withIdx := List.enumFrom 1 s.alivePlayers
  withIdx.foldl
    (fun t (ki : Nat × String) =>
      let x : Int := Int.ediv (cfg.gridWidth * (ki.1 : Int)) ((n : Int) + 1)
      { t with players := (dictUpdate t.players ki.2
          (fun q => { q with chunks := q.chunks ++ (intRange yStart yStop).map (fun y => (x, y)) })) })
    s

/-- `Session.get_state()` (tick, apples, alive players' wire dicts). -/
def Session.getState (s : Session) : Nat × List Pos × List WirePlayer :=
  (s.tick, s.apples, s.alivePlayersList.map SessionPlayer.toDict)

/-- One iteration of the `while` body of `Session._run` (without the
broadcast and the sleep, which do not change session state): flush pending
deaths, advance the tick, on movement ticks run the movement/collision
phases, then regenerate apples. -/
def Session.tickBody (cfg : AppCfg) (rand : Nat → Nat) (appleFuel : Nat)
    (s : Session) (c : Nat) : Option (Session × Nat) := do
  let s := s.updateLeaderboard
  let s := { s with tick := s.tick + 1 }
  let um ← s.updatePositions cfg
  let r ←
    if um.2 then do
      let s1 ← um.1.handleWallDeaths cfg
      let s2 ← s1.handleTailSelfCutting
      let r1 ← s2.handleCollisionDeaths rand c
      r1.1.handleAppleEating rand r1.2
    else pure (um.1, c)
  r.1.generateApples cfg rand appleFuel r.2

/-- `Session._finish_game`'s leaderboard work: flush pending deaths, then
move any remaining alive players into `current_deaths` and flush again (the
alive dictionary itself is not cleared by the source). -/
def Session.finishGame (s : Session) : Session :=
  let s := s.updateLeaderboard
  if s.alivePlayers.isEmpty then s
  else ({ s with currentDeaths := s.currentDeaths ++ s.alivePlayers }).updateLeaderboard

/-- `Session._disconnect_from_running`'s session-level effect (used for
mid-game departures): pop the player from `alive_players` into
`current_deaths`, promoting the owner to the first remaining alive player if
needed.  A key that is not alive has no session-level effect (the source logs
a warning when the key is still in `players`). -/
def Session.applyDisconnect (s : Session) (k : String) : Session :=
  if k ∈ s.alivePlayers then
    let s' := { s with alivePlayers := s.alivePlayers.erase k,
                       currentDeaths := s.currentDeaths ++ [k] }
    if s'.alivePlayers ≠ [] ∧ s'.ownerKey = k then
      { s' with ownerKey := s'.alivePlayers.headD k }
    else s'
  else s

/-- The `Session._run` loop followed by `_finish_game`, returning the wire
leaderboard (`reversed(self.leaderboard)`, rank 1 first) as key lists.
`events` supplies, per iteration, the keys of connections that disconnect
from the running session before that tick; `fuel` bounds the loop, `none`
meaning the game did not finish within `fuel` ticks (or a tick raised). -/
def Session.runGame (cfg : AppCfg) (rand : Nat → Nat) (appleFuel : Nat) :
    Nat → List (List String) → Session → Nat → Option (List (List String))
  | 0, _, _, _ => none
  | fuel + 1, events, s, c =>
    let s := (events.headD []).foldl Session.applyDisconnect s
    if s.alivePlayers.length ≤ 1 then
      some s.finishGame.leaderboard.reverse
    else
      match s.tickBody cfg rand appleFuel c with
      | none => none
      | some (s', c') => Session.runGame cfg rand appleFuel fuel events.tail s' c'

/-! ## `connection.py` / `app.py` — the world model

A `World` is the server-side state the inbound handlers touch: the session
registry (`App.sessions`), the live `Connection` objects, and the
`App.connections` key registry.  Each operation returns the new world
together with the list of messages written, as `(recipient key, message)`
pairs in the order the source awaits them; `none` models an uncaught
exception.  The writer side of a connection is reduced to its
`is_closing()` flag. -/

/-- The server→client messages (`MsgType` of `enums.py`) with the payload
parts the source constructs. -/
inductive ServerMsg : Type
  | invalidSession (sessionExists : Bool)
  | notInSession
  | notSessionOwner
  | playerNameAlreadyTaken
  | sessionJoin (code : String) (player : WirePlayer) (ownerKey : String)
      (playersField : Option (List WirePlayer))
  | sessionLeave (code : String) (key : String) (ownerKey : String)
  | sessionStart (code : String) (tick : Nat) (apples : List Pos)
      (alive : List WirePlayer)
  | sessionEnd (code : String) (leaderboard : List (List WirePlayer))
  | sessionStateUpdate (tick : Nat) (apples : List Pos) (alive : List WirePlayer)
deriving DecidableEq, Repr

/-- A live `Connection` object: its stable key, the optional code of the
session its `session` attribute points to, and `writer.is_closing()`. -/
structure Conn where
  key : String
  session : Option String
  writerClosing : Bool
deriving DecidableEq, Repr

/-- The process-wide state: `App.sessions` (code → session, insertion
ordered), the live connection objects, and the `App.connections` key set. -/
structure World where
  sessions : List (String × Session)
  conns : List Conn
  connections : List String
deriving DecidableEq, Repr

/-- `self.app.sessions[code]` lookup. -/
def World.findSession (w : World) (code : String) : Option Session :=
  (w.sessions.find? (fun e => e.1 == code)).map (fun e => e.2)

/-- Store the (mutated) session object back under its code. -/
def World.setSession (w : World) (code : String) (s : Session) : World :=
  { w with sessions := w.sessions.map (fun e => if e.1 == code then (code, s) else e) }

/-- `App.remove_session`: pop the code from the registry. -/
def World.removeSession (w : World) (code : String) : World :=
  { w with sessions := w.sessions.eraseP (fun e => e.1 == code) }

/-- Find the live connection object with the given key. -/
def World.findConn (w : World) (k : String) : Option Conn :=
  w.conns.find? (fun c => c.key == k)

/-- Mutate `conn.session` of connection `k`. -/
def World.setConnSession (w : World) (k : String) (v : Option String) : World :=
  { w with conns := w.conns.map (fun c => if c.key == k then { c with session := v } else c) }

/-- Mutate the writer state of connection `k` (`writer.close()`). -/
def World.setConnClosing (w : World) (k : String) : World :=
  { w with conns := w.conns.map (fun c => if c.key == k then { c with writerClosing := true } else c) }

/-- `Connection.send_session_join` from `connection.py`: the payload carries
the argument player; the full `players` list is attached exactly when the
argument player's key equals the *recipient's* key. -/
def sendSessionJoin (selfKey : String) (sess : Session) (player : SessionPlayer) :
    String × ServerMsg :=
  (selfKey,
    .sessionJoin sess.code player.toDict sess.ownerKey
      (if player.key == selfKey then some (sess.players.map SessionPlayer.toDict) else none))

/-- `Session.connect` from `session.py`: refuse (raise) while running; admit
the player into `players` and `alive_players`; then broadcast `session_join`.
The source's broadcast is
`(player.conn.send_session_join(self, player) for player in self.players.values())`
— the generator-expression variable `player` shadows the newly created
player, so each recipient is sent **itself** as the payload player (and
therefore always receives the full `players` list). -/
def World.sessionConnect (w : World) (code : String) (connKey name : String) :
    Option (World × List (String × ServerMsg)) := do
  let sess ← w.findSession code
  if sess.running then none
  else
    let player : SessionPlayer := ⟨connKey, name, [], .UP, none⟩
    let sess' := { sess with players := dictSet sess.players player,
                             alivePlayers := keySet sess.alivePlayers connKey }
    let w' := w.setSession code sess'
    some (w', sess'.players.map (fun p => sendSessionJoin p.key sess' p))

/-- `Connection.send_session_leave`: a recipient that is itself the leaver
clears its `session` attribute; the message is written only when the
recipient's writer is still open. -/
def World.sendSessionLeave (w : World) (selfKey : String) (sess : Session)
    (leftKey : String) : World × List (String × ServerMsg) :=
  let w' := if leftKey == selfKey then w.setConnSession selfKey none else w
  match w.findConn selfKey with
  | some cn =>
    if cn.writerClosing then (w', [])
    else (w', [(selfKey, .sessionLeave sess.code leftKey sess.ownerKey)])
  | none => (w', [])

/-- Broadcast `send_session_leave` to a list of recipient keys in order. -/
def World.broadcastLeave (w : World) (recipients : List String) (sess : Session)
    (leftKey : String) : World × List (String × ServerMsg) :=
  match recipients with
  | [] => (w, [])
  | r :: rest =>
    let s1 := w.sendSessionLeave r sess leftKey
    let s2 := s1.1.broadcastLeave rest sess leftKey
    (s2.1, s1.2 ++ s2.2)

/-- `Session._finish_game` at world level: flush the leaderboard, send
`session_end` (rank 1 first, players rendered with `to_dict`) to every
player whose writer is open — `send_session_end` clears the recipient's
`session` attribute unconditionally and, when it wrote the message, runs
`Connection.close` (whose `session` is by then `None`: close the writer and
drop the key from `App.connections`) — then remove the session from the
registry.  The broadcast is `World.sessionEndLoop`: one recipient key at a
time, clear the recipient's `session` attribute; when its writer is still
open, write `session_end` and run `Connection.close` (which, with `session`
now `None`, closes the writer and pops the key from `App.connections`). -/
def World.sessionEndLoop (code : String) (lb : List (List WirePlayer)) :
    World → List String → World × List (String × ServerMsg)
  | w, [] => (w, [])
  | w, k :: rest =>
    let w1 := w.setConnSession k none
    let step : World × List (String × ServerMsg) :=
      match w1.findConn k with
      | some cn =>
        if cn.writerClosing then (w1, [])
        else
          let w2 := w1.setConnClosing k
          ({ w2 with connections := w2.connections.erase k },
           [(k, ServerMsg.sessionEnd code lb)])
      | none => (w1, [])
    let rec2 := World.sessionEndLoop code lb step.1 rest
    (rec2.1, step.2 ++ rec2.2)

/-- `Session._finish_game` at world level (see `World.sessionEndLoop`). -/
def World.finishGame (w : World) (code : String) :
    Option (World × List (String × ServerMsg)) := do
  let sess ← w.findSession code
  let sessF := sess.finishGame
  let lbData : List (List WirePlayer) :=
    sessF.leaderboard.reverse.map
      (fun place => (place.filterMap (dictFind sessF.players)).map SessionPlayer.toDict)
  let w := w.setSession code sessF
  let res := World.sessionEndLoop code lbData w (sessF.players.map (fun p => p.key))
  some ((res.1.removeSession code), res.2)

/-- `Session._disconnect_from_running`: pop the leaver from `alive_players`
into `current_deaths` (a leaver no longer alive but still in `players` is a
logged no-op; one not in `players` at all raises), promote the owner if
needed, broadcast `session_leave` to **all** players, and when at most one
alive player remains await the tick task, which finishes the game. -/
def World.disconnectFromRunning (w : World) (code : String) (connKey : String) :
    Option (World × List (String × ServerMsg)) := do
  let sess ← w.findSession code
  if connKey ∉ sess.alivePlayers then
    if (sess.players.map (fun p => p.key)).contains connKey then some (w, [])
    else none
  else
    let sess1 := { sess with alivePlayers := sess.alivePlayers.erase connKey,
                             currentDeaths := sess.currentDeaths ++ [connKey] }
    let sess2 :=
      if sess1.alivePlayers ≠ [] ∧ sess1.ownerKey = connKey then
        { sess1 with ownerKey := sess1.alivePlayers.headD connKey }
      else sess1
    let w := w.setSession code sess2
    let br := w.broadcastLeave (sess2.players.map (fun p => p.key)) sess2 connKey
    if sess2.alivePlayers.length ≤ 1 then do
      let fin ← br.1.finishGame code
      some (fin.1, br.2 ++ fin.2)
    else some (br.1, br.2)

/-- `Session._disconnect_from_not_running`: delete the leaver from `players`
and `alive_players` (raising when absent), remove the session when it became
empty or promote the owner to the first remaining player, broadcast
`session_leave` to the remaining players and finally also to the leaver. -/
def World.disconnectFromNotRunning (w : World) (code : String) (connKey : String) :
    Option (World × List (String × ServerMsg)) := do
  let sess ← w.findSession code
  if ¬ (sess.players.map (fun p => p.key)).contains connKey then none
  else if connKey ∉ sess.alivePlayers then none
  else
    let sess1 := { sess with players := sess.players.filter (fun p => p.key != connKey),
                             alivePlayers := sess.alivePlayers.erase connKey }
    let removed := sess1.players.isEmpty
    let sess2 :=
      if removed then sess1
      else if sess1.ownerKey = connKey then
        { sess1 with ownerKey := (sess1.players.headD ⟨connKey, "", [], .UP, none⟩).key }
      else sess1
    let w := if removed then w.removeSession code else w.setSession code sess2
    let br := w.broadcastLeave (sess2.players.map (fun p => p.key)) sess2 connKey
    let sl := br.1.sendSessionLeave connKey sess2 connKey
    some (sl.1, br.2 ++ sl.2)

/-- `Session.disconnect`: dispatch on `running`. -/
def World.disconnect (w : World) (code : String) (connKey : String) :
    Option (World × List (String × ServerMsg)) := do
  let sess ← w.findSession code
  if sess.running then w.disconnectFromRunning code connKey
  else w.disconnectFromNotRunning code connKey

/-- `Connection.close`: detach from the session when one is set (triggering
`disconnect`), close the writer, and pop the key from `App.connections`. -/
def World.closeConn (w : World) (connKey : String) :
    Option (World × List (String × ServerMsg)) := do
  let cn ← w.findConn connKey
  let r1 ←
    match cn.session with
    | none => some (w, ([] : List (String × ServerMsg)))
    | some code => w.disconnect code connKey
  let w2 := r1.1.setConnClosing connKey
  some ({ w2 with connections := w2.connections.erase connKey }, r1.2)

/-- `Connection.handle_join` from `connection.py`: unknown code →
`invalid_session {exists: false}`; running session → `invalid_session
{exists: true}`; else detach from a different previous session if any, then
reject when the name is taken, else attach (`self.session = session` and
`Session.connect`). -/
def World.handleJoin (w : World) (connKey : String) (code : String) (name : String) :
    Option (World × List (String × ServerMsg)) := do
  let cn ← w.findConn connKey
  match w.findSession code with
  | none => some (w, [(connKey, .invalidSession false)])
  | some sess =>
    if sess.running then some (w, [(connKey, .invalidSession true)])
    else do
      let r1 ←
        match cn.session with
        | some prev =>
          if prev ≠ code then w.disconnect prev connKey
          else some (w, ([] : List (String × ServerMsg)))
        | none => some (w, ([] : List (String × ServerMsg)))
      let sess1 ← r1.1.findSession code
      if sess1.isNameTaken name then
        some (r1.1, r1.2 ++ [(connKey, .playerNameAlreadyTaken)])
      else do
        let w2 := r1.1.setConnSession connKey (some code)
        let r2 ← w2.sessionConnect code connKey name
        some (r2.1, r1.2 ++ r2.2)

/-- `Connection.handle_create_session` together with `App.create_session`:
up to five attempts at a fresh invite code (`codes` is the code generator's
stream; all five colliding raises), a new `Session` whose only player is the
owner, a `session_join` sent to the owner, and then
`self.session = <the new session>` — with **no** detach from any previous
session. -/
def World.handleCreateSession (w : World) (connKey : String) (name : String)
    (codes : Nat → String) : Option (World × List (String × ServerMsg)) := do
  let _ ← w.findConn connKey
  let attempt ← (List.range 5).find? (fun i => (w.findSession (codes i)).isNone)
  let code := codes attempt
  let owner : SessionPlayer := ⟨connKey, name, [], .UP, none⟩
  let sess : Session :=
    { code := code, ownerKey := connKey, players := [owner], alivePlayers := [connKey],
      currentDeaths := [], leaderboard := [], apples := [], running := false, tick := 0 }
  let w1 := { w with sessions := w.sessions ++ [(code, sess)] }
  let msgs := [sendSessionJoin connKey sess owner]
  let w2 := w1.setConnSession connKey (some code)
  some (w2, msgs)

/-- `Connection.handle_start_session`: not in a session → `not_in_session`;
session already running → `invalid_session {exists: true}`; not the owner →
`not_session_owner`; else `Session.start`: set `running`, generate the
initial chunks, broadcast `session_start` (the tick task itself is modelled
separately by `Session.runGame`). -/
def World.handleStartSession (cfg : AppCfg) (w : World) (connKey : String) :
    Option (World × List (String × ServerMsg)) := do
  let cn ← w.findConn connKey
  match cn.session with
  | none => some (w, [(connKey, .notInSession)])
  | some code => do
    let sess ← w.findSession code
    if sess.running then some (w, [(connKey, .invalidSession true)])
    else if sess.ownerKey ≠ connKey then some (w, [(connKey, .notSessionOwner)])
    else
      let sess1 := Session.generatePlayerChunks cfg { sess with running := true }
      let st := sess1.getState
      let w1 := w.setSession code sess1
      some (w1, sess1.players.map
        (fun p => (p.key, ServerMsg.sessionStart sess1.code st.1 st.2.1 st.2.2)))

/-- `Connection.handle_input`: no session → `not_in_session`; session not
running → `invalid_session {exists: true}`; a `new_direction` outside 1–4 →
log a warning and `close()` the connection (no message); sender not alive →
silently ignore; direction equal to the current one or its opposite →
silently ignore; otherwise set the player's direction. -/
def World.handleInput (w : World) (connKey : String) (v : Int) :
    Option (World × List (String × ServerMsg)) := do
  let cn ← w.findConn connKey
  match cn.session with
  | none => some (w, [(connKey, .notInSession)])
  | some code => do
    let sess ← w.findSession code
    if ¬ sess.running then some (w, [(connKey, .invalidSession true)])
    else
      match Direction.ofValue v with
      | none => w.closeConn connKey
      | some d =>
        if connKey ∉ sess.alivePlayers then some (w, [])
        else do
          let p ← dictFind sess.players connKey
          if d = p.direction ∨ d = p.direction.opposite then some (w, [])
          else
            some (w.setSession code
              { sess with players := (dictUpdate sess.players connKey
                  (fun q => { q with direction := d })) }, [])

/-- A rejection ("semantic refusal") message: one of `invalid_session`,
`not_in_session`, `not_session_owner`, `player_name_already_taken` (the
advisory responses of `connection.py` that leave the connection open). -/
def ServerMsg.isRejection : ServerMsg → Bool
  | .invalidSession _ => true
  | .notInSession => true
  | .notSessionOwner => true
  | .playerNameAlreadyTaken => true
  | _ => false

/-- The session state after `Session.connect` admits `connKey` under `name`
(the `sess'` constructed inside `World.sessionConnect`). -/
def joinedSession (sess : Session) (connKey name : String) : Session :=
  { sess with players := dictSet sess.players ⟨connKey, name, [], .UP, none⟩,
              alivePlayers := keySet sess.alivePlayers connKey }

/-! ## Concrete states used by the claim theorems -/

/-- The default configuration of `App.__init__`. -/
def defaultCfg : AppCfg := {}

/-- A fixed randomness stream (no property below depends on the draws). -/
def zeroRand : Nat → Nat := fun _ => 0

/-- A freshly started two-player session before chunk generation. -/
def exStart : Session :=
  { code := "CCCC", ownerKey := "a",
    players := [⟨"a", "A", [], .UP, none⟩, ⟨"b", "B", [], .UP, none⟩],
    alivePlayers := ["a", "b"], currentDeaths := [], leaderboard := [],
    apples := [], running := true, tick := 0 }

/-- A running two-player session in which player `a` (head `(5,5)`, length
4, moving RIGHT) is about to move onto the apple at `(6,5)`; player `b` is
far away. -/
def exApple : Session :=
  { code := "CCCC", ownerKey := "a",
    players := [⟨"a", "A", [(5,5),(4,5),(3,5),(2,5)], .RIGHT, none⟩,
                ⟨"b", "B", [(20,20),(20,21),(20,22),(20,23)], .UP, none⟩],
    alivePlayers := ["a", "b"], currentDeaths := [], leaderboard := [],
    apples := [(6,5)], running := true, tick := 0 }

/-- The not-running target session of `exJoinWorld`. -/
def exJoinSess : Session :=
  { code := "TTTT", ownerKey := "a",
    players := [⟨"a", "A", [], .UP, none⟩],
    alivePlayers := ["a"], currentDeaths := [], leaderboard := [],
    apples := [], running := false, tick := 0 }

/-- A world with one not-running session `TTTT` owned by `a` (name "A") and
an unattached connection `b`. -/
def exJoinWorld : World :=
  { sessions := [("TTTT", exJoinSess)],
    conns := [⟨"a", some "TTTT", false⟩, ⟨"b", none, false⟩],
    connections := ["a", "b"] }

/-- A world in which connection `a` is the sole member of the not-running
session `AAAA` and then sends `create_session`. -/
def exCreateWorld : World :=
  { sessions := [("AAAA",
      { code := "AAAA", ownerKey := "a",
        players := [⟨"a", "A", [], .UP, none⟩],
        alivePlayers := ["a"], currentDeaths := [], leaderboard := [],
        apples := [], running := false, tick := 0 })],
    conns := [⟨"a", some "AAAA", false⟩],
    connections := ["a"] }

/-- A world with a running two-player session `PPPP` (players `a`, `b`) and
a not-running session `TTTT` whose sole player is named "C". -/
def exTwoSessionWorld : World :=
  { sessions := [
      ("PPPP",
        { code := "PPPP", ownerKey := "a",
          players := [⟨"a", "A", [(1,1),(1,2)], .UP, none⟩,
                      ⟨"b", "B", [(5,5),(5,6)], .UP, none⟩],
          alivePlayers := ["a", "b"], currentDeaths := [], leaderboard := [],
          apples := [], running := true, tick := 2 }),
      ("TTTT",
        { code := "TTTT", ownerKey := "c",
          players := [⟨"c", "C", [], .UP, none⟩],
          alivePlayers := ["c"], currentDeaths := [], leaderboard := [],
          apples := [], running := false, tick := 0 })],
    conns := [⟨"a", some "PPPP", false⟩, ⟨"b", some "PPPP", false⟩,
              ⟨"c", some "TTTT", false⟩],
    connections := ["a", "b", "c"] }

/-! ## Bookkeeping invariant of a started session -/

/-- The multiset of player keys accounted for by the session bookkeeping:
still alive, pending in `current_deaths`, or placed on the leaderboard. -/
def Session.accounted (s : Session) : Multiset String :=
  (s.alivePlayers : Multiset String) + (s.currentDeaths : Multiset String) +
    ((s.leaderboard.flatten : List String) : Multiset String)

/-- Every admitted player is accounted for exactly as often as it occurs in
`players`: the key multiset of `players` equals alive + pending + placed. -/
def Session.Inv (s : Session) : Prop :=
  ((s.players.map (fun p => p.key) : List String) : Multiset String) = s.accounted

/-- One step of the tick machinery never invents or loses players: the
admitted keys are unchanged, keys move only between `alive_players` and
`current_deaths`, and the leaderboard is untouched. -/
def Moves (s s' : Session) : Prop :=
  s'.players.map (fun p => p.key) = s.players.map (fun p => p.key) ∧
  ((s'.alivePlayers : Multiset String) + (s'.currentDeaths : Multiset String) =
    (s.alivePlayers : Multiset String) + (s.currentDeaths : Multiset String)) ∧
  s'.leaderboard = s.leaderboard

/-! ## Helper lemmas about the world operations -/

theorem find?_map_of_pred_stable {α : Type} (l : List α) (p : α → Bool) (f : α → α)
    (hf : ∀ a, p (f a) = p a) : (l.map f).find? p = (l.find? p).map f := by
  induction l with
  | nil => simp
  | cons a rest ih =>
    by_cases h : p a = true
    · simp [List.find?_cons, hf a, h]
    · have h' : p a = false := by simpa using h
      simp [List.find?_cons, hf a, h', ih]

theorem find?_eraseP_of_disjoint {α : Type} (l : List α) (p q : α → Bool)
    (hpq : ∀ a, p a = true → q a = false) : (l.eraseP q).find? p = l.find? p := by
  induction l with
  | nil => simp
  | cons a rest ih =>
    by_cases hq : q a = true
    · have hp : p a = false := by
        by_cases hp : p a = true
        · exact absurd hq (by simp [hpq a hp])
        · simpa using hp
      simp [List.eraseP_cons, hq, List.find?_cons, hp, ih]
    · have hq' : q a = false := by simpa using hq
      by_cases hp : p a = true
      · simp [List.eraseP_cons, hq', List.find?_cons, hp]
      · have hp' : p a = false := by simpa using hp
        simp [List.eraseP_cons, hq', List.find?_cons, hp', ih]

theorem findConn_mapConns (w : World) (f : Conn → Conn) (k : String)
    (hf : ∀ c, (f c).key = c.key) :
    ({ w with conns := w.conns.map f } : World).findConn k = (w.findConn k).map f := by
  unfold World.findConn
  exact find?_map_of_pred_stable w.conns _ f (fun c => by rw [hf c])

theorem findConn_setConnSession_self (w : World) (k : String) (v : Option String) :
    (w.setConnSession k v).findConn k =
      (w.findConn k).map (fun c => { c with session := v }) := by
  have h := findConn_mapConns w
    (fun c => if c.key == k then { c with session := v } else c) k
    (fun c => by by_cases h : c.key == k <;> simp [h])
  rw [show w.setConnSession k v =
    { w with conns := w.conns.map (fun c => if c.key == k then { c with session := v } else c) } from rfl]
  rw [h]
  cases hc : w.findConn k with
  | none => rfl
  | some c =>
    have hc' := hc
    unfold World.findConn at hc'
    have hk := List.find?_some hc'
    simp only [Option.map]
    rw [if_pos hk]

theorem findConn_setConnSession_ne (w : World) (k k' : String) (v : Option String)
    (hne : k' ≠ k) : (w.setConnSession k v).findConn k' = w.findConn k' := by
  have h := findConn_mapConns w
    (fun c => if c.key == k then { c with session := v } else c) k'
    (fun c => by by_cases h : c.key == k <;> simp [h])
  rw [show w.setConnSession k v =
    { w with conns := w.conns.map (fun c => if c.key == k then { c with session := v } else c) } from rfl]
  rw [h]
  cases hc : w.findConn k' with
  | none => rfl
  | some c =>
    have hc' := hc
    unfold World.findConn at hc'
    have hk := List.find?_some hc'
    have hkk : c.key = k' := by simpa using hk
    have : (c.key == k) = false := by simp [hkk, hne]
    simp only [Option.map]
    rw [if_neg (by simp [this])]

theorem findConn_setConnClosing_self (w : World) (k : String) :
    (w.setConnClosing k).findConn k =
      (w.findConn k).map (fun c => { c with writerClosing := true }) := by
  have h := findConn_mapConns w
    (fun c => if c.key == k then { c with writerClosing := true } else c) k
    (fun c => by by_cases h : c.key == k <;> simp [h])
  rw [show w.setConnClosing k =
    { w with conns := w.conns.map (fun c => if c.key == k then { c with writerClosing := true } else c) } from rfl]
  rw [h]
  cases hc : w.findConn k with
  | none => rfl
  | some c =>
    have hc' := hc
    unfold World.findConn at hc'
    have hk := List.find?_some hc'
    simp only [Option.map]
    rw [if_pos hk]

theorem findSession_setSession_self (w : World) (code : String) (s s0 : Session)
    (h : w.findSession code = some s0) :
    (w.setSession code s).findSession code = some s := by
  unfold World.findSession World.setSession
  unfold World.findSession at h
  rcases hf : w.sessions.find? (fun e => e.1 == code) with _ | e
  · rw [hf] at h; exact absurd h (by simp)
  · have hmap : (w.sessions.map (fun e => if e.1 == code then (code, s) else e)).find?
        (fun e => e.1 == code) =
        (w.sessions.find? (fun e => e.1 == code)).map
          (fun e => if e.1 == code then (code, s) else e) := by
      refine find?_map_of_pred_stable w.sessions _ _ (fun a => ?_)
      by_cases h : (a.1 == code) = true
      · have ha : a.1 = code := by simpa using h
        simp [h, ha]
      · simp [h]
    rw [hmap, hf]
    have he := List.find?_some hf
    have hee : e.1 = code := by simpa using he
    simp [hee]

theorem findSession_setSession_ne (w : World) (code code' : String) (s : Session)
    (hne : code' ≠ code) :
    (w.setSession code s).findSession code' = w.findSession code' := by
  unfold World.findSession World.setSession
  have hmap : (w.sessions.map (fun e => if e.1 == code then (code, s) else e)).find?
      (fun e => e.1 == code') =
      (w.sessions.find? (fun e => e.1 == code')).map
        (fun e => if e.1 == code then (code, s) else e) := by
    refine find?_map_of_pred_stable w.sessions _ _ (fun a => ?_)
    by_cases h : (a.1 == code) = true
    · have ha : a.1 = code := by simpa using h
      simp [h, ha]
    · simp [h]
  rw [hmap]
  cases hf : w.sessions.find? (fun e => e.1 == code') with
  | none => rfl
  | some e =>
    have he := List.find?_some hf
    have hee : e.1 = code' := by simpa using he
    have hff : (e.1 == code) = false := by simp [hee, hne]
    simp only [Option.map]
    rw [if_neg (by simp [hff])]

theorem findSession_removeSession_ne (w : World) (code code' : String)
    (hne : code' ≠ code) :
    (w.removeSession code).findSession code' = w.findSession code' := by
  unfold World.findSession World.removeSession
  rw [find?_eraseP_of_disjoint]
  intro e he
  have : e.1 = code' := by simpa using he
  simp [this, hne]

theorem setConnSession_sessions (w : World) (k : String) (v : Option String) :
    (w.setConnSession k v).sessions = w.sessions := rfl

theorem setConnClosing_sessions (w : World) (k : String) :
    (w.setConnClosing k).sessions = w.sessions := rfl

theorem setConnSession_connections (w : World) (k : String) (v : Option String) :
    (w.setConnSession k v).connections = w.connections := rfl

theorem setConnClosing_connections (w : World) (k : String) :
    (w.setConnClosing k).connections = w.connections := rfl

theorem setSession_conns (w : World) (code : String) (s : Session) :
    (w.setSession code s).conns = w.conns := rfl

theorem removeSession_conns (w : World) (code : String) :
    (w.removeSession code).conns = w.conns := rfl

theorem map_self_of_fix {α : Type} (f : α → α) (hf : ∀ a, f (f a) = f a)
    (l : List α) : (l.map f).map f = l.map f := by
  induction l with
  | nil => rfl
  | cons a rest ih => simp [hf a, ih]

theorem setConnSession_idem (w : World) (k : String) (v : Option String) :
    (w.setConnSession k v).setConnSession k v = w.setConnSession k v := by
  unfold World.setConnSession
  congr 1
  refine map_self_of_fix _ (fun c => ?_) w.conns
  by_cases h : c.key = k <;> simp [h]

theorem setConnSession_conns_keys (w : World) (k : String) (v : Option String) :
    (w.setConnSession k v).conns.map (fun c => c.key) = w.conns.map (fun c => c.key) := by
  unfold World.setConnSession
  simp only [List.map_map]
  refine List.map_congr_left (fun c _ => ?_)
  by_cases h : c.key = k <;> simp [h]

theorem setConnClosing_conns_keys (w : World) (k : String) :
    (w.setConnClosing k).conns.map (fun c => c.key) = w.conns.map (fun c => c.key) := by
  unfold World.setConnClosing
  simp only [List.map_map]
  refine List.map_congr_left (fun c _ => ?_)
  by_cases h : c.key = k <;> simp [h]

theorem find?_isSome_eq_any {α : Type} (l : List α) (p : α → Bool) :
    (l.find? p).isSome = l.any p := by
  induction l with
  | nil => rfl
  | cons a rest ih =>
    by_cases h : p a = true <;> simp [List.find?_cons, h, ih]

theorem any_map_eq {α β : Type} (l : List α) (f : α → β) (p : β → Bool) :
    (l.map f).any p = l.any (fun a => p (f a)) := by
  induction l with
  | nil => rfl
  | cons a rest ih => simp [ih]

theorem findConn_isSome_keys (w w' : World) (k : String)
    (h : w'.conns.map (fun c => c.key) = w.conns.map (fun c => c.key)) :
    (w'.findConn k).isSome = (w.findConn k).isSome := by
  unfold World.findConn
  rw [find?_isSome_eq_any, find?_isSome_eq_any]
  have h1 : ∀ (u : World), u.conns.any (fun c => c.key == k) =
      (u.conns.map (fun c => c.key)).any (fun x => x == k) := by
    intro u
    rw [any_map_eq]
  rw [h1, h1, h]

theorem findConn_setConnClosing_ne (w : World) (k k' : String)
    (hne : k' ≠ k) : (w.setConnClosing k).findConn k' = w.findConn k' := by
  have h := findConn_mapConns w
    (fun c => if c.key == k then { c with writerClosing := true } else c) k'
    (fun c => by by_cases h : c.key == k <;> simp [h])
  rw [show w.setConnClosing k =
    { w with conns := w.conns.map (fun c => if c.key == k then { c with writerClosing := true } else c) } from rfl]
  rw [h]
  cases hc : w.findConn k' with
  | none => rfl
  | some c =>
    have hc' := hc
    unfold World.findConn at hc'
    have hk := List.find?_some hc'
    have hkk : c.key = k' := by simpa using hk
    have : (c.key == k) = false := by simp [hkk, hne]
    simp only [Option.map]
    rw [if_neg (by simp [this])]

theorem findConn_setConnections (w : World) (l : List String) (k : String) :
    ({ w with connections := l } : World).findConn k = w.findConn k := rfl

theorem sendSessionLeave_fst (w : World) (self : String) (sess : Session)
    (lk : String) :
    (w.sendSessionLeave self sess lk).1 =
      if lk == self then w.setConnSession self none else w := by
  unfold World.sendSessionLeave
  cases h : w.findConn self with
  | none => rfl
  | some cn => by_cases hcl : cn.writerClosing = true <;> simp [hcl]

theorem sendSessionLeave_msgs (w : World) (self : String) (sess : Session)
    (lk : String) :
    ∀ m ∈ (w.sendSessionLeave self sess lk).2, m.2.isRejection = false := by
  unfold World.sendSessionLeave
  cases h : w.findConn self with
  | none => simp
  | some cn =>
    by_cases hcl : cn.writerClosing = true <;> simp [hcl, ServerMsg.isRejection]

theorem broadcastLeave_fst (sess : Session) (lk : String) :
    ∀ (rs : List String) (w : World),
      (w.broadcastLeave rs sess lk).1 =
        if lk ∈ rs then w.setConnSession lk none else w := by
  intro rs
  induction rs with
  | nil => intro w; simp [World.broadcastLeave]
  | cons r rest ih =>
    intro w
    show ((w.sendSessionLeave r sess lk).1.broadcastLeave rest sess lk).1 = _
    rw [ih, sendSessionLeave_fst]
    by_cases hr : lk = r
    · subst hr
      by_cases hm : lk ∈ rest <;>
        simp [hm, setConnSession_idem, List.mem_cons]
    · have : (lk == r) = false := by simp [hr]
      by_cases hm : lk ∈ rest <;> simp [this, hm, List.mem_cons, hr]

theorem broadcastLeave_msgs (sess : Session) (lk : String) :
    ∀ (rs : List String) (w : World),
      ∀ m ∈ (w.broadcastLeave rs sess lk).2, m.2.isRejection = false := by
  intro rs
  induction rs with
  | nil => intro w m hm; simp [World.broadcastLeave] at hm
  | cons r rest ih =>
    intro w m hm
    show m.2.isRejection = false
    have hm' : m ∈ (w.sendSessionLeave r sess lk).2 ++
        ((w.sendSessionLeave r sess lk).1.broadcastLeave rest sess lk).2 := hm
    rcases List.mem_append.mp hm' with h | h
    · exact sendSessionLeave_msgs w r sess lk m h
    · exact ih _ m h

theorem sessionEndLoop_sessions (code : String) (lb : List (List WirePlayer)) :
    ∀ (ks : List String) (w : World),
      (World.sessionEndLoop code lb w ks).1.sessions = w.sessions := by
  intro ks
  induction ks with
  | nil => intro w; rfl
  | cons k rest ih =>
    intro w
    show (World.sessionEndLoop code lb _ rest).1.sessions = w.sessions
    rw [ih]
    cases h : (w.setConnSession k none).findConn k with
    | none => simp [h, setConnSession_sessions]
    | some cn =>
      by_cases hcl : cn.writerClosing = true <;>
        simp [h, hcl, setConnSession_sessions, setConnClosing_sessions]

theorem sessionEndLoop_conns_keys (code : String) (lb : List (List WirePlayer)) :
    ∀ (ks : List String) (w : World),
      (World.sessionEndLoop code lb w ks).1.conns.map (fun c => c.key) =
        w.conns.map (fun c => c.key) := by
  intro ks
  induction ks with
  | nil => intro w; rfl
  | cons k rest ih =>
    intro w
    show (World.sessionEndLoop code lb _ rest).1.conns.map _ = _
    rw [ih]
    cases h : (w.setConnSession k none).findConn k with
    | none => simp [h, setConnSession_conns_keys]
    | some cn =>
      by_cases hcl : cn.writerClosing = true
      · simp [h, hcl, setConnSession_conns_keys]
      · simp only [h, hcl]
        rw [if_neg (by simp [hcl])]
        have h1 : ({ (w.setConnSession k none).setConnClosing k with
            connections := ((w.setConnSession k none).setConnClosing k).connections.erase k } : World).conns
            = ((w.setConnSession k none).setConnClosing k).conns := rfl
        rw [h1, setConnClosing_conns_keys, setConnSession_conns_keys]

theorem sessionEndLoop_connections_sublist (code : String)
    (lb : List (List WirePlayer)) :
    ∀ (ks : List String) (w : World),
      (World.sessionEndLoop code lb w ks).1.connections.Sublist w.connections := by
  intro ks
  induction ks with
  | nil => intro w; exact List.Sublist.refl _
  | cons k rest ih =>
    intro w
    show (World.sessionEndLoop code lb _ rest).1.connections.Sublist w.connections
    cases h : (w.setConnSession k none).findConn k with
    | none =>
      simp only [h]
      exact ih (w.setConnSession k none)
    | some cn =>
      by_cases hcl : cn.writerClosing = true
      · simp only [h]
        rw [if_pos hcl]
        exact ih (w.setConnSession k none)
      · simp only [h]
        rw [if_neg (by simp [hcl])]
        refine List.Sublist.trans (ih _) ?_
        show (((w.setConnSession k none).setConnClosing k).connections.erase k).Sublist
          w.connections
        rw [setConnClosing_connections, setConnSession_connections]
        exact List.erase_sublist k w.connections

theorem sessionEndLoop_msgs (code : String) (lb : List (List WirePlayer)) :
    ∀ (ks : List String) (w : World),
      ∀ m ∈ (World.sessionEndLoop code lb w ks).2, m.2.isRejection = false := by
  intro ks
  induction ks with
  | nil => intro w m hm; simp [World.sessionEndLoop] at hm
  | cons k rest ih =>
    intro w m hm
    show m.2.isRejection = false
    have hm' : m ∈ (match (w.setConnSession k none).findConn k with
        | some cn =>
          if cn.writerClosing then ((w.setConnSession k none), ([] : List (String × ServerMsg)))
          else
            ({ (w.setConnSession k none).setConnClosing k with
               connections := ((w.setConnSession k none).setConnClosing k).connections.erase k },
             [(k, ServerMsg.sessionEnd code lb)])
        | none => ((w.setConnSession k none), [])).2 ++
        (World.sessionEndLoop code lb _ rest).2 := hm
    cases h : (w.setConnSession k none).findConn k with
    | none =>
      rw [h] at hm'
      exact ih _ m (by simpa using hm')
    | some cn =>
      rw [h] at hm'
      by_cases hcl : cn.writerClosing = true
      · simp [hcl] at hm'
        exact ih _ m hm'
      · simp [hcl] at hm'
        rcases hm' with h1 | h1
        · simp [h1, ServerMsg.isRejection]
        · exact ih _ m h1

theorem sessionEndLoop_session_none (code : String) (lb : List (List WirePlayer))
    (k : String) :
    ∀ (ks : List String) (w : World),
      ((w.findConn k).map (fun c => c.session) = some none) →
      (((World.sessionEndLoop code lb w ks).1.findConn k).map (fun c => c.session) =
        some none) := by
  intro ks
  induction ks with
  | nil => intro w h; exact h
  | cons k' rest ih =>
    intro w h
    have hset : (((w.setConnSession k' none).findConn k).map (fun c => c.session) =
        some none) := by
      by_cases hk : k = k'
      · subst hk
        rw [findConn_setConnSession_self]
        cases hc : w.findConn k with
        | none => rw [hc] at h; exact absurd h (by simp)
        | some cn => simp
      · rw [findConn_setConnSession_ne _ _ _ _ hk]
        exact h
    show (((World.sessionEndLoop code lb _ rest).1.findConn k).map (fun c => c.session) =
      some none)
    cases hfc : (w.setConnSession k' none).findConn k' with
    | none =>
      simp only [hfc]
      exact ih _ hset
    | some cn =>
      by_cases hcl : cn.writerClosing = true
      · simp only [hfc]
        rw [if_pos hcl]
        exact ih _ hset
      · simp only [hfc]
        rw [if_neg (by simp [hcl])]
        refine ih _ ?_
        rw [findConn_setConnections]
        by_cases hk : k = k'
        · subst hk
          rw [findConn_setConnClosing_self]
          cases hc2 : (w.setConnSession k none).findConn k with
          | none => rw [hc2] at hset; exact absurd hset (by simp)
          | some cn2 =>
            rw [hc2] at hset
            simp at hset
            simp [hset]
        · rw [findConn_setConnClosing_ne _ _ _ hk]
          exact hset

theorem findConn_setSession (w : World) (code : String) (s : Session) (k : String) :
    (w.setSession code s).findConn k = w.findConn k := rfl

theorem findConn_removeSession (w : World) (code : String) (k : String) :
    (w.removeSession code).findConn k = w.findConn k := rfl

theorem findConn_closing_setConnSession (w : World) (k k' : String)
    (v : Option String) :
    ((w.setConnSession k v).findConn k').map (fun c => c.writerClosing) =
      (w.findConn k').map (fun c => c.writerClosing) := by
  by_cases hk : k' = k
  · subst hk
    rw [findConn_setConnSession_self]
    cases h : w.findConn k' <;> simp
  · rw [findConn_setConnSession_ne _ _ _ _ hk]

/-- The facts about `World.finishGame` used by the handler proofs. -/
theorem finishGame_spec (w : World) (code : String) (s : Session)
    (hs : w.findSession code = some s) :
    ∃ wf m, w.finishGame code = some (wf, m) ∧
      (∀ c', c' ≠ code → wf.findSession c' = w.findSession c') ∧
      wf.conns.map (fun c => c.key) = w.conns.map (fun c => c.key) ∧
      wf.connections.Sublist w.connections ∧
      (∀ m' ∈ m, m'.2.isRejection = false) ∧
      (∀ k, ((w.findConn k).map (fun c => c.session) = some none) →
        ((wf.findConn k).map (fun c => c.session) = some none)) := by
  unfold World.finishGame
  rw [hs]
  simp only [Option.some_bind, Option.bind_eq_bind]
  have hfs_of_sessions : ∀ (u1 u2 : World) (c' : String), u1.sessions = u2.sessions →
      u1.findSession c' = u2.findSession c' := by
    intro u1 u2 c' h
    unfold World.findSession
    rw [h]
  refine ⟨_, _, rfl, ?_, ?_, ?_, ?_, ?_⟩
  · intro c' hc'
    rw [findSession_removeSession_ne _ _ _ hc']
    rw [hfs_of_sessions _ (w.setSession code s.finishGame) c'
      (sessionEndLoop_sessions _ _ _ _)]
    exact findSession_setSession_ne w code c' s.finishGame hc'
  · rw [removeSession_conns, sessionEndLoop_conns_keys, setSession_conns]
  · rw [show (World.removeSession _ code).connections =
      (World.sessionEndLoop code _ (w.setSession code s.finishGame) _).1.connections from rfl]
    have := sessionEndLoop_connections_sublist code
      (s.finishGame.leaderboard.reverse.map
        (fun place => (place.filterMap (dictFind s.finishGame.players)).map SessionPlayer.toDict))
      (s.finishGame.players.map (fun p => p.key)) (w.setSession code s.finishGame)
    simpa using this
  · intro m' hm'
    exact sessionEndLoop_msgs _ _ _ _ m' hm'
  · intro k hk
    rw [findConn_removeSession]
    refine sessionEndLoop_session_none _ _ _ _ _ ?_
    rw [findConn_setSession]
    exact hk

/-- The facts about `_disconnect_from_running` for an alive leaver. -/
theorem disconnectFromRunning_alive (w : World) (code ck : String) (sess : Session)
    (cn : Conn) (hs : w.findSession code = some sess)
    (hfc : w.findConn ck = some cn)
    (ha : ck ∈ sess.alivePlayers)
    (hkp : ck ∈ sess.players.map (fun p => p.key)) :
    ∃ wd m, w.disconnectFromRunning code ck = some (wd, m) ∧
      ((wd.findConn ck).map (fun c => c.session) = some none) ∧
      wd.conns.map (fun c => c.key) = w.conns.map (fun c => c.key) ∧
      wd.connections.Sublist w.connections ∧
      (∀ c', c' ≠ code → wd.findSession c' = w.findSession c') ∧
      (∀ m' ∈ m, m'.2.isRejection = false) ∧
      (1 < (sess.alivePlayers.erase ck).length →
        wd.connections = w.connections ∧
        ∀ k', ((wd.findConn k').map (fun c => c.writerClosing)) =
          ((w.findConn k').map (fun c => c.writerClosing))) := by
  unfold World.disconnectFromRunning
  rw [hs]
  simp only [Option.some_bind, Option.bind_eq_bind]
  rw [if_neg (by simpa using ha)]
  set sess1 : Session :=
    { sess with alivePlayers := sess.alivePlayers.erase ck,
                currentDeaths := sess.currentDeaths ++ [ck] } with hsess1
  set sess2 : Session :=
    (if sess1.alivePlayers ≠ [] ∧ sess1.ownerKey = ck then
      { sess1 with ownerKey := sess1.alivePlayers.headD ck }
    else sess1) with hsess2
  have hpl2 : sess2.players = sess.players := by
    rw [hsess2]; split <;> rfl
  have hal2 : sess2.alivePlayers = sess.alivePlayers.erase ck := by
    rw [hsess2]; split <;> rfl
  have hbr : ((w.setSession code sess2).broadcastLeave
      (sess2.players.map (fun p => p.key)) sess2 ck).1 =
      (w.setSession code sess2).setConnSession ck none := by
    rw [broadcastLeave_fst]
    rw [if_pos (by rw [hpl2]; exact hkp)]
  have hsess2find : ((w.setSession code sess2).setConnSession ck none).findSession code =
      some sess2 := by
    rw [show ((w.setSession code sess2).setConnSession ck none).findSession code =
      (w.setSession code sess2).findSession code from rfl]
    exact findSession_setSession_self w code sess2 sess hs
  have hconnset : (((w.setSession code sess2).setConnSession ck none).findConn ck).map
      (fun c => c.session) = some none := by
    rw [show ((w.setSession code sess2).setConnSession ck none).findConn ck =
      ((w.setSession code sess2).setConnSession ck none).findConn ck from rfl]
    rw [findConn_setConnSession_self]
    rw [findConn_setSession, hfc]
    rfl
  by_cases hfin : sess2.alivePlayers.length ≤ 1
  · -- the leaver's departure ends the game: the tick task finishes it
    obtain ⟨wf, mf, hwf, hf1, hf2, hf3, hf4, hf5⟩ :=
      finishGame_spec ((w.setSession code sess2).setConnSession ck none) code sess2
        hsess2find
    refine ⟨wf, ((w.setSession code sess2).broadcastLeave
        (sess2.players.map (fun p => p.key)) sess2 ck).2 ++ mf, ?_, ?_, ?_, ?_, ?_, ?_, ?_⟩
    · rw [if_pos hfin]
      rw [show ((w.setSession code sess2).broadcastLeave
          (sess2.players.map (fun p => p.key)) sess2 ck).1.finishGame code =
        (((w.setSession code sess2)).setConnSession ck none).finishGame code from
          (by rw [hbr])]
      rw [hwf]
      rfl
    · exact hf5 ck hconnset
    · rw [hf2, setConnSession_conns_keys, setSession_conns]
    · refine List.Sublist.trans hf3 ?_
      rw [setConnSession_connections]
      exact List.Sublist.refl _
    · intro c' hc'
      rw [hf1 c' hc']
      exact findSession_setSession_ne w code c' sess2 hc'
    · intro m' hm'
      rcases List.mem_append.mp hm' with h1 | h1
      · exact broadcastLeave_msgs sess2 ck _ _ m' h1
      · exact hf4 m' h1
    · intro hgt
      exfalso
      rw [hal2] at hfin
      omega
  · refine ⟨((w.setSession code sess2).broadcastLeave
        (sess2.players.map (fun p => p.key)) sess2 ck).1,
      ((w.setSession code sess2).broadcastLeave
        (sess2.players.map (fun p => p.key)) sess2 ck).2, ?_, ?_, ?_, ?_, ?_, ?_, ?_⟩
    · rw [if_neg hfin]
    · rw [hbr]
      exact hconnset
    · rw [hbr, setConnSession_conns_keys, setSession_conns]
    · rw [hbr]
      exact List.Sublist.refl _
    · intro c' hc'
      rw [hbr]
      exact findSession_setSession_ne w code c' sess2 hc'
    · intro m' hm'
      exact broadcastLeave_msgs sess2 ck _ _ m' hm'
    · intro _
      rw [hbr]
      constructor
      · rfl
      · intro k'
        rw [findConn_closing_setConnSession, findConn_setSession]

/-- The facts about `_disconnect_from_not_running` for a present leaver. -/
theorem disconnectFromNotRunning_spec (w : World) (code ck : String) (sess : Session)
    (cn : Conn) (hs : w.findSession code = some sess)
    (hfc : w.findConn ck = some cn)
    (hp : (sess.players.map (fun p => p.key)).contains ck = true)
    (ha : ck ∈ sess.alivePlayers) :
    ∃ wd m, w.disconnectFromNotRunning code ck = some (wd, m) ∧
      ((wd.findConn ck).map (fun c => c.session) = some none) ∧
      wd.conns.map (fun c => c.key) = w.conns.map (fun c => c.key) ∧
      wd.connections = w.connections ∧
      (∀ c', c' ≠ code → wd.findSession c' = w.findSession c') ∧
      (∀ m' ∈ m, m'.2.isRejection = false) ∧
      (∀ k', ((wd.findConn k').map (fun c => c.writerClosing)) =
        ((w.findConn k').map (fun c => c.writerClosing))) := by
  unfold World.disconnectFromNotRunning
  rw [hs]
  simp only [Option.some_bind, Option.bind_eq_bind]
  rw [if_neg (not_not_intro hp)]
  rw [if_neg (by simpa using ha)]
  set sess1 : Session :=
    { sess with players := sess.players.filter (fun p => p.key != ck),
                alivePlayers := sess.alivePlayers.erase ck } with hsess1
  set sess2 : Session :=
    (if sess1.players.isEmpty then sess1
     else if sess1.ownerKey = ck then
       { sess1 with ownerKey := (sess1.players.headD ⟨ck, "", [], .UP, none⟩).key }
     else sess1) with hsess2
  have hpl2 : sess2.players = sess1.players := by
    rw [hsess2]; split
    · rfl
    · split <;> rfl
  set wreg : World :=
    (if sess1.players.isEmpty then w.removeSession code else w.setSession code sess2)
    with hwreg
  have hwregconns : wreg.conns = w.conns := by
    rw [hwreg]; split <;> rfl
  have hwregconnections : wreg.connections = w.connections := by
    rw [hwreg]; split <;> rfl
  have hwregfc : ∀ k', wreg.findConn k' = w.findConn k' := by
    intro k'
    unfold World.findConn
    rw [hwregconns]
  have hwregsess : ∀ c', c' ≠ code → wreg.findSession c' = w.findSession c' := by
    intro c' hc'
    rw [hwreg]; split
    · exact findSession_removeSession_ne w code c' hc'
    · exact findSession_setSession_ne w code c' sess2 hc'
  have hck : ck ∉ sess2.players.map (fun p => p.key) := by
    rw [hpl2, hsess1]
    simp only [List.mem_map]
    rintro ⟨p, hpmem, hpk⟩
    have := List.of_mem_filter hpmem
    simp [hpk] at this
  have hbr : (wreg.broadcastLeave (sess2.players.map (fun p => p.key)) sess2 ck).1 =
      wreg := by
    rw [broadcastLeave_fst, if_neg hck]
  have hsl : (wreg.sendSessionLeave ck sess2 ck).1 = wreg.setConnSession ck none := by
    rw [sendSessionLeave_fst, if_pos (by simp)]
  refine ⟨_, _, rfl, ?_, ?_, ?_, ?_, ?_, ?_⟩
  · rw [hbr, hsl]
    rw [findConn_setConnSession_self, hwregfc, hfc]
    rfl
  · rw [hbr, hsl]
    rw [setConnSession_conns_keys, hwregconns]
  · rw [hbr, hsl]
    rw [setConnSession_connections, hwregconnections]
  · intro c' hc'
    rw [hbr, hsl]
    rw [show (wreg.setConnSession ck none).findSession c' = wreg.findSession c' from rfl]
    exact hwregsess c' hc'
  · intro m' hm'
    rcases List.mem_append.mp hm' with h1 | h1
    · exact broadcastLeave_msgs sess2 ck _ _ m' (by simpa [hbr] using h1)
    · exact sendSessionLeave_msgs _ _ _ _ m' (by simpa [hbr] using h1)
  · intro k'
    rw [hbr, hsl]
    rw [findConn_closing_setConnSession]
    rw [hwregfc]

theorem findSession_of_sessions_eq (u1 u2 : World) (c : String)
    (h : u1.sessions = u2.sessions) : u1.findSession c = u2.findSession c := by
  unfold World.findSession
  rw [h]

theorem setConnClosing_absorb (u : World) (k : String) (l : List String) :
    ({ u.setConnClosing k with connections := l } : World).setConnClosing k =
      { u.setConnClosing k with connections := l } := by
  unfold World.setConnClosing
  congr 1
  refine map_self_of_fix _ (fun c => ?_) u.conns
  by_cases h : c.key = k <;> simp [h]

theorem nodup_not_mem_erase {α : Type} [DecidableEq α] (a : α) (l : List α)
    (h : l.Nodup) : a ∉ l.erase a := by
  induction l with
  | nil => simp
  | cons b rest ih =>
    rcases List.nodup_cons.mp h with ⟨hb, hrest⟩
    by_cases hab : b = a
    · subst hab
      rw [List.erase_cons_head]
      exact hb
    · rw [List.erase_cons_tail (by simpa using (fun h => hab (by simpa using h)) : ¬ (b == a) = true)]
      intro hm
      rcases List.mem_cons.mp hm with h1 | h1
      · exact hab h1.symm
      · exact ih hrest h1

/-- The value of `handle_join` on an existing, not-running target session,
expressed in terms of the result `(wd, m1)` of the previous-session detach
step. -/
theorem handleJoin_detach (w : World) (connKey code name : String) (cn : Conn)
    (sess : Session) (wd : World) (m1 : List (String × ServerMsg))
    (hc : w.findConn connKey = some cn)
    (hs : w.findSession code = some sess)
    (hnr : sess.running = false)
    (hdet : (match cn.session with
      | some prev =>
        if prev ≠ code then w.disconnect prev connKey
        else some (w, ([] : List (String × ServerMsg)))
      | none => some (w, ([] : List (String × ServerMsg)))) = some (wd, m1)) :
    w.handleJoin connKey code name =
      Option.bind (wd.findSession code) (fun sess1 =>
        if sess1.isNameTaken name = true then
          some (wd, m1 ++ [(connKey, ServerMsg.playerNameAlreadyTaken)])
        else
          Option.bind ((wd.setConnSession connKey (some code)).sessionConnect
              code connKey name)
            (fun r2 => some (r2.1, m1 ++ r2.2))) := by
  unfold World.handleJoin
  simp only [hc, Option.bind_eq_bind, Option.some_bind]
  simp only [hs]
  rw [if_neg (by simp [hnr])]
  cases hsn : cn.session with
  | none =>
    simp only [hsn] at hdet ⊢
    injection hdet with hdet
    have h1 : w = wd := congrArg Prod.fst hdet
    have h2 : ([] : List (String × ServerMsg)) = m1 := congrArg Prod.snd hdet
    subst h1
    subst h2
    simp only [Option.bind_eq_bind, Option.some_bind]
    rw [hs]
    simp only [Option.some_bind]
  | some prev =>
    simp only [hsn] at hdet ⊢
    by_cases hp : prev ≠ code
    · rw [if_pos hp] at hdet ⊢
      rw [hdet]
      simp only [Option.bind_eq_bind, Option.some_bind]
    · rw [if_neg hp] at hdet ⊢
      injection hdet with hdet
      have h1 : w = wd := congrArg Prod.fst hdet
      have h2 : ([] : List (String × ServerMsg)) = m1 := congrArg Prod.snd hdet
      subst h1
      subst h2
      simp only [Option.bind_eq_bind, Option.some_bind]
      rw [hs]
      simp only [Option.some_bind]

/-! ## Bookkeeping lemmas for the tick machinery -/

theorem moves_refl (s : Session) : Moves s s := ⟨rfl, rfl, rfl⟩

theorem moves_trans {s t u : Session} (h1 : Moves s t) (h2 : Moves t u) : Moves s u :=
  ⟨h2.1.trans h1.1, h2.2.1.trans h1.2.1, h2.2.2.trans h1.2.2⟩

theorem inv_of_moves {s s' : Session} (hm : Moves s s') (h : s.Inv) : s'.Inv := by
  unfold Session.Inv Session.accounted at h ⊢
  rw [hm.1, h, hm.2.2, hm.2.1]

theorem erase_append_single_perm {k : String} {l : List String} (hk : k ∈ l)
    (d : List String) : List.Perm (l.erase k ++ (d ++ [k])) (l ++ d) := by
  refine List.perm_append_comm.trans ?_
  rw [List.append_assoc, List.singleton_append]
  exact (List.Perm.append_left d (List.perm_cons_erase hk).symm).trans List.perm_append_comm

theorem popAlive_moves {s s' : Session} {k : String}
    (h : s.popAlive k = some s') : Moves s s' := by
  unfold Session.popAlive at h
  by_cases hk : k ∈ s.alivePlayers
  · rw [if_pos hk] at h
    injection h with h
    subst h
    refine ⟨rfl, ?_, rfl⟩
    rw [Multiset.coe_add, Multiset.coe_add]
    exact Multiset.coe_eq_coe.mpr (erase_append_single_perm hk s.currentDeaths)
  · rw [if_neg hk] at h
    exact Option.noConfusion h

theorem foldlM_option_rel {α β : Type} (g : β → α → Option β) (P : β → β → Prop)
    (hrefl : ∀ b, P b b) (htrans : ∀ a b c, P a b → P b c → P a c)
    (hstep : ∀ b a b1, g b a = some b1 → P b b1) :
    ∀ (l : List α) (b b' : β), l.foldlM g b = some b' → P b b' := by
  intro l
  induction l with
  | nil =>
    intro b b' h
    simp only [List.foldlM_nil, Option.pure_def] at h
    injection h with h
    subst h
    exact hrefl b
  | cons a l ih =>
    intro b b' h
    simp only [List.foldlM_cons] at h
    cases hg : g b a with
    | none => rw [hg] at h; simp at h
    | some b1 =>
      rw [hg] at h
      simp only [Option.bind_eq_bind, Option.some_bind] at h
      exact htrans b b1 b' (hstep b a b1 hg) (ih b1 b' h)

theorem foldl_popAlive_moves (ks : List String) (s s' : Session)
    (h : ks.foldlM Session.popAlive s = some s') : Moves s s' :=
  foldlM_option_rel Session.popAlive Moves (fun t => moves_refl t)
    (fun _ _ _ h1 h2 => moves_trans h1 h2)
    (fun _ _ _ hg => popAlive_moves hg) ks s s' h

theorem dictFind_key {l : List SessionPlayer} {k : String} {p : SessionPlayer}
    (h : dictFind l k = some p) : p.key = k := by
  unfold dictFind at h
  simpa using List.find?_some h

theorem dictUpdate_keys (l : List SessionPlayer) (k : String)
    (f : SessionPlayer → SessionPlayer) (hf : ∀ q, q.key = k → (f q).key = q.key) :
    (dictUpdate l k f).map (fun p => p.key) = l.map (fun p => p.key) := by
  unfold dictUpdate
  rw [List.map_map]
  refine List.map_congr_left ?_
  intro q _
  by_cases hq : q.key = k
  · simp [Function.comp, hq, hf q hq]
  · simp [Function.comp, hq]

theorem mapAlive_moves {f : SessionPlayer → Option SessionPlayer}
    (hf : ∀ p p1, f p = some p1 → p1.key = p.key)
    {s s' : Session} (h : s.mapAlive f = some s') : Moves s s' := by
  unfold Session.mapAlive at h
  refine foldlM_option_rel _ Moves (fun t => moves_refl t)
    (fun _ _ _ h1 h2 => moves_trans h1 h2) ?_ s.alivePlayers s s' h
  intro t k t' hg
  cases hd : dictFind t.players k with
  | none => rw [hd] at hg; exact Option.noConfusion hg
  | some p =>
    simp only [hd] at hg
    cases hfp : f p with
    | none => rw [hfp] at hg; exact Option.noConfusion hg
    | some p1 =>
      simp only [hfp] at hg
      injection hg with hg
      subst hg
      refine ⟨?_, rfl, rfl⟩
      exact dictUpdate_keys t.players k _
        (fun q hq => ((hf p p1 hfp).trans (dictFind_key hd)).trans hq.symm)

theorem move_key {apples : List Pos} {p p1 : SessionPlayer}
    (h : SessionPlayer.move apples p = some p1) : p1.key = p.key := by
  unfold SessionPlayer.move at h
  cases hc : p.chunks with
  | nil => rw [hc] at h; exact Option.noConfusion h
  | cons h0 rest =>
    obtain ⟨hx, hy⟩ := h0
    simp only [hc] at h
    split at h
    · injection h with h; subst h; rfl
    · injection h with h; subst h; rfl

theorem selfCut_key {p p1 : SessionPlayer}
    (h : p.selfCut = some p1) : p1.key = p.key := by
  unfold SessionPlayer.selfCut at h
  cases hc : p.chunks with
  | nil => rw [hc] at h; exact Option.noConfusion h
  | cons h0 rest =>
    simp only [hc] at h
    by_cases hl : p.lastTailPiece = some h0
    · rw [if_pos hl] at h; injection h with h; subst h; rfl
    · rw [if_neg hl] at h
      cases hi : rest.indexOf? h0 with
      | none => simp only [hi] at h; injection h with h; subst h; rfl
      | some i => simp only [hi] at h; injection h with h; subst h; rfl

theorem updatePositions_moves {cfg : AppCfg} {s : Session} {r : Session × Bool}
    (h : s.updatePositions cfg = some r) : Moves s r.1 := by
  unfold Session.updatePositions at h
  by_cases ht : s.tick % cfg.gameSpeed ≠ 0
  · rw [if_pos ht] at h
    injection h with h
    subst h
    exact moves_refl s
  · rw [if_neg ht] at h
    cases hm : s.mapAlive (SessionPlayer.move s.apples) with
    | none => rw [hm] at h; exact Option.noConfusion h
    | some s1 =>
      simp only [hm] at h
      injection h with h
      subst h
      exact mapAlive_moves (fun _ _ hp => move_key hp) hm

theorem handleWallDeaths_moves {cfg : AppCfg} {s s' : Session}
    (h : s.handleWallDeaths cfg = some s') : Moves s s' := by
  unfold Session.handleWallDeaths at h
  simp only [Option.bind_eq_bind] at h
  obtain ⟨tr, _, h2⟩ := Option.bind_eq_some.mp h
  exact foldl_popAlive_moves tr s s' h2

theorem handleTailSelfCutting_moves {s s' : Session}
    (h : s.handleTailSelfCutting = some s') : Moves s s' :=
  mapAlive_moves (fun _ _ hp => selfCut_key hp) h

theorem handleTailCollisions_moves {rand : Nat → Nat} {s : Session} {c : Nat}
    {r : Session × Nat} (h : s.handleTailCollisions rand c = some r) : Moves s r.1 := by
  unfold Session.handleTailCollisions at h
  simp only [Option.bind_eq_bind] at h
  obtain ⟨res, _, h2⟩ := Option.bind_eq_some.mp h
  obtain ⟨s1, h3, h4⟩ := Option.bind_eq_some.mp h2
  simp only [Option.pure_def] at h4
  injection h4 with h4
  subst h4
  exact foldl_popAlive_moves res.1 s s1 h3

theorem handleHeadOverlap_moves {rand : Nat → Nat} {s : Session} {c : Nat}
    {r : Session × Nat} (h : s.handleHeadOverlapCollisions rand c = some r) :
    Moves s r.1 := by
  unfold Session.handleHeadOverlapCollisions at h
  simp only [Option.bind_eq_bind] at h
  obtain ⟨buckets, _, h2⟩ := Option.bind_eq_some.mp h
  refine foldlM_option_rel _ (fun x y : Session × Nat => Moves x.1 y.1)
    (fun t => moves_refl t.1) (fun _ _ _ ha hb => moves_trans ha hb) ?_ buckets (s, c) r h2
  intro acc b acc' hg
  by_cases hb : b.2.length > 1
  · rw [if_pos hb] at hg
    obtain ⟨s1, h3, h4⟩ := Option.bind_eq_some.mp hg
    simp only [Option.pure_def] at h4
    injection h4 with h4
    subst h4
    exact foldl_popAlive_moves _ _ _ h3
  · rw [if_neg hb] at hg
    simp only [Option.pure_def] at hg
    injection hg with hg
    subst hg
    exact moves_refl _

theorem handleHeadOn_moves {rand : Nat → Nat} {s : Session} {c : Nat}
    {r : Session × Nat} (h : s.handleHeadOnCollisions rand c = some r) : Moves s r.1 := by
  unfold Session.handleHeadOnCollisions at h
  simp only [Option.bind_eq_bind] at h
  obtain ⟨res, _, h2⟩ := Option.bind_eq_some.mp h
  obtain ⟨s1, h3, h4⟩ := Option.bind_eq_some.mp h2
  simp only [Option.pure_def] at h4
  injection h4 with h4
  subst h4
  exact foldl_popAlive_moves res.1 s s1 h3

theorem handleCollisionDeaths_moves {rand : Nat → Nat} {s : Session} {c : Nat}
    {r : Session × Nat} (h : s.handleCollisionDeaths rand c = some r) : Moves s r.1 := by
  unfold Session.handleCollisionDeaths at h
  simp only [Option.bind_eq_bind] at h
  obtain ⟨r1, h1, h2⟩ := Option.bind_eq_some.mp h
  obtain ⟨r2, h3, h4⟩ := Option.bind_eq_some.mp h2
  exact moves_trans (moves_trans (handleTailCollisions_moves h1)
    (handleHeadOverlap_moves h3)) (handleHeadOn_moves h4)

theorem handleAppleEating_moves {rand : Nat → Nat} {s : Session} {c : Nat}
    {r : Session × Nat} (h : s.handleAppleEating rand c = some r) : Moves s r.1 := by
  unfold Session.handleAppleEating at h
  simp only [Option.bind_eq_bind] at h
  obtain ⟨s1, h1, h2⟩ := Option.bind_eq_some.mp h
  obtain ⟨res, h3, h4⟩ := Option.bind_eq_some.mp h2
  obtain ⟨s2, h5, h6⟩ := Option.bind_eq_some.mp h4
  simp only [Option.pure_def] at h6
  injection h6 with h6
  subst h6
  refine moves_trans ?_ (foldl_popAlive_moves res.1 s1 s2 h5)
  refine foldlM_option_rel _ Moves (fun t => moves_refl t)
    (fun _ _ _ ha hb => moves_trans ha hb) ?_ s.alivePlayers s s1 h1
  intro t k t' hg
  cases hd : dictFind t.players k with
  | none => rw [hd] at hg; exact Option.noConfusion hg
  | some p =>
    simp only [hd] at hg
    cases hlp : p.lastTailPiece with
    | none =>
      simp only [hlp] at hg
      injection hg with hg
      subst hg
      exact moves_refl t
    | some piece =>
      simp only [hlp] at hg
      by_cases hp : piece ∈ t.apples
      · rw [if_pos hp] at hg
        injection hg with hg
        subst hg
        refine ⟨?_, rfl, rfl⟩
        exact dictUpdate_keys t.players k _ (fun q hq => rfl)
      · rw [if_neg hp] at hg
        exact Option.noConfusion hg

theorem generateApples_go_moves (cfg : AppCfg) (rand : Nat → Nat) (s : Session)
    (taken : List Pos) :
    ∀ (f cc : Nat) (r : Session × Nat),
      Session.generateApples.go cfg rand s taken f cc = some r → Moves s r.1 := by
  intro f
  induction f with
  | zero => intro cc r h; exact Option.noConfusion h
  | succ f ih =>
    intro cc r h
    simp only [Session.generateApples.go] at h
    split at h
    · exact ih _ _ h
    · injection h with h
      subst h
      exact ⟨rfl, rfl, rfl⟩

theorem generateApples_moves {cfg : AppCfg} {rand : Nat → Nat} {fuel : Nat}
    {s : Session} {c : Nat} {r : Session × Nat}
    (h : s.generateApples cfg rand fuel c = some r) : Moves s r.1 := by
  unfold Session.generateApples at h
  by_cases ha : s.apples ≠ []
  · rw [if_pos ha] at h
    injection h with h
    subst h
    exact moves_refl s
  · rw [if_neg ha] at h
    exact generateApples_go_moves cfg rand s _ fuel c r h

theorem stableInsert_perm {α : Type} (le : α → α → Bool) (a : α) (l : List α) :
    List.Perm (stableInsert le a l) (a :: l) := by
  induction l with
  | nil => exact List.Perm.refl _
  | cons b bs ih =>
    unfold stableInsert
    by_cases h : le a b
    · rw [if_pos h]
    · rw [if_neg h]
      exact (List.Perm.cons b ih).trans (List.Perm.swap a b bs)

theorem stableSort_perm {α : Type} (le : α → α → Bool) (l : List α) :
    List.Perm (stableSort le l) l := by
  induction l with
  | nil => exact List.Perm.refl _
  | cons a l ih =>
    exact (stableInsert_perm le a _).trans (List.Perm.cons a ih)

theorem groupRuns_flatten {α : Type} (eqv : α → α → Bool) (l : List α) :
    (groupRuns eqv l).flatten = l := by
  induction l with
  | nil => rfl
  | cons a rest ih =>
    unfold groupRuns
    cases hg : groupRuns eqv rest with
    | nil =>
      simp only [hg]
      have hr : rest = [] := by rw [← ih, hg]; rfl
      subst hr
      rfl
    | cons g gs =>
      cases g with
      | nil =>
        simp only [hg]
        rw [← ih, hg]
        rfl
      | cons b g1 =>
        simp only [hg]
        by_cases he : eqv a b
        · rw [if_pos he, ← ih, hg]
          rfl
        · rw [if_neg he, ← ih, hg]
          rfl

theorem updateLeaderboard_players (s : Session) :
    s.updateLeaderboard.players = s.players := by
  unfold Session.updateLeaderboard
  by_cases hd : s.currentDeaths.isEmpty
  · rw [if_pos hd]
  · rw [if_neg hd]

theorem updateLeaderboard_alive (s : Session) :
    s.updateLeaderboard.alivePlayers = s.alivePlayers := by
  unfold Session.updateLeaderboard
  by_cases hd : s.currentDeaths.isEmpty
  · rw [if_pos hd]
  · rw [if_neg hd]

theorem updateLeaderboard_deaths (s : Session) :
    s.updateLeaderboard.currentDeaths = [] := by
  unfold Session.updateLeaderboard
  by_cases hd : s.currentDeaths.isEmpty
  · rw [if_pos hd]
    exact List.isEmpty_iff.mp hd
  · rw [if_neg hd]

theorem updateLeaderboard_join (s : Session) :
    ((s.updateLeaderboard.leaderboard.flatten : List String) : Multiset String) =
      ((s.leaderboard.flatten : List String) : Multiset String) +
        (s.currentDeaths : Multiset String) := by
  unfold Session.updateLeaderboard
  by_cases hd : s.currentDeaths.isEmpty
  · rw [if_pos hd, List.isEmpty_iff.mp hd, Multiset.coe_nil, add_zero]
  · rw [if_neg hd]
    dsimp only
    rw [List.flatten_append, groupRuns_flatten, ← Multiset.coe_add,
      Multiset.coe_eq_coe.mpr (stableSort_perm _ _)]

theorem updateLeaderboard_inv {s : Session} (h : s.Inv) : s.updateLeaderboard.Inv := by
  unfold Session.Inv Session.accounted at h ⊢
  rw [updateLeaderboard_players, updateLeaderboard_alive, updateLeaderboard_deaths,
    updateLeaderboard_join, h, Multiset.coe_nil, add_zero]
  abel

theorem tickBody_inv {cfg : AppCfg} {rand : Nat → Nat} {af : Nat} {s : Session}
    {c : Nat} {r : Session × Nat} (h : s.tickBody cfg rand af c = some r) :
    r.1.players.map (fun p => p.key) = s.players.map (fun p => p.key) ∧
      (s.Inv → r.1.Inv) := by
  unfold Session.tickBody at h
  simp only [Option.bind_eq_bind] at h
  obtain ⟨um, h1, h2⟩ := Option.bind_eq_some.mp h
  have hm1 := updatePositions_moves h1
  have hrest : ∃ r1 : Session × Nat, Moves um.1 r1.1 ∧
      r1.1.generateApples cfg rand af r1.2 = some r := by
    by_cases hu : um.2 = true
    · rw [if_pos hu] at h2
      obtain ⟨sa, ha1, hh⟩ := Option.bind_eq_some.mp h2
      obtain ⟨sb, hb1, hh2⟩ := Option.bind_eq_some.mp hh
      obtain ⟨rc, hc1, hh3⟩ := Option.bind_eq_some.mp hh2
      obtain ⟨rd, hd1, hh4⟩ := Option.bind_eq_some.mp hh3
      exact ⟨rd, moves_trans (moves_trans (moves_trans (handleWallDeaths_moves ha1)
        (handleTailSelfCutting_moves hb1)) (handleCollisionDeaths_moves hc1))
        (handleAppleEating_moves hd1), hh4⟩
    · rw [if_neg hu] at h2
      simp only [Option.pure_def, Option.some_bind] at h2
      exact ⟨(um.1, c), moves_refl _, h2⟩
  obtain ⟨r1, hmr, h4⟩ := hrest
  have hm3 := generateApples_moves h4
  have hm := moves_trans (moves_trans hm1 hmr) hm3
  constructor
  · exact hm.1.trans (congrArg (fun l => List.map (fun p => p.key) l)
      (updateLeaderboard_players s))
  · intro hi
    exact inv_of_moves hm (updateLeaderboard_inv hi)

theorem applyDisconnect_moves (s : Session) (k : String) :
    Moves s (s.applyDisconnect k) := by
  unfold Session.applyDisconnect
  by_cases hk : k ∈ s.alivePlayers
  · rw [if_pos hk]
    have key : ∀ t : Session, t.players = s.players → t.leaderboard = s.leaderboard →
        t.alivePlayers = s.alivePlayers.erase k →
        t.currentDeaths = s.currentDeaths ++ [k] → Moves s t := by
      intro t h1 h2 h3 h4
      refine ⟨congrArg (fun l => List.map (fun p => p.key) l) h1, ?_, h2⟩
      rw [h3, h4, Multiset.coe_add, Multiset.coe_add]
      exact Multiset.coe_eq_coe.mpr (erase_append_single_perm hk s.currentDeaths)
    simp only []
    split
    · exact key _ rfl rfl rfl rfl
    · exact key _ rfl rfl rfl rfl
  · rw [if_neg hk]
    exact moves_refl s

theorem foldl_applyDisconnect_moves (ks : List String) (s : Session) :
    Moves s (ks.foldl Session.applyDisconnect s) := by
  induction ks generalizing s with
  | nil => exact moves_refl s
  | cons k ks ih => exact moves_trans (applyDisconnect_moves s k) (ih (s.applyDisconnect k))

theorem finishGame_partition {s : Session} (h : s.Inv) :
    ((s.finishGame.leaderboard.flatten : List String) : Multiset String) =
      ((s.players.map (fun p => p.key) : List String) : Multiset String) := by
  have h1 := updateLeaderboard_inv h
  unfold Session.Inv Session.accounted at h1
  rw [updateLeaderboard_players, updateLeaderboard_deaths] at h1
  unfold Session.finishGame
  simp only []
  by_cases ha : s.updateLeaderboard.alivePlayers.isEmpty
  · rw [if_pos ha]
    rw [List.isEmpty_iff.mp ha] at h1
    rw [h1, Multiset.coe_nil, zero_add, zero_add]
  · rw [if_neg ha]
    rw [updateLeaderboard_join]
    show ((s.updateLeaderboard.leaderboard.flatten : List String) : Multiset String) +
        ((s.updateLeaderboard.currentDeaths ++ s.updateLeaderboard.alivePlayers :
          List String) : Multiset String) =
      ((s.players.map (fun p => p.key) : List String) : Multiset String)
    rw [updateLeaderboard_deaths, List.nil_append, h1, Multiset.coe_nil, add_zero]
    exact add_comm _ _

theorem reverse_flatten_perm {α : Type} (l : List (List α)) :
    List.Perm l.reverse.flatten l.flatten := by
  induction l with
  | nil => exact List.Perm.refl _
  | cons x l ih =>
    have h1 : (l.reverse ++ [x]).flatten = l.reverse.flatten ++ x := by
      rw [List.flatten_append, List.flatten_cons, List.flatten_nil, List.append_nil]
    rw [List.reverse_cons, h1]
    exact List.perm_append_comm.trans (List.Perm.append_left x ih)

theorem runGame_partition (cfg : AppCfg) (rand : Nat → Nat) (af : Nat) :
    ∀ (fuel : Nat) (events : List (List String)) (s : Session) (c : Nat)
      (wire : List (List String)), s.Inv →
      Session.runGame cfg rand af fuel events s c = some wire →
      ((wire.flatten : List String) : Multiset String) =
        ((s.players.map (fun p => p.key) : List String) : Multiset String) := by
  intro fuel
  induction fuel with
  | zero =>
    intro events s c wire hInv h
    exact Option.noConfusion h
  | succ fuel ih =>
    intro events s c wire hInv h
    simp only [Session.runGame] at h
    have hm0 := foldl_applyDisconnect_moves (events.headD []) s
    have hInv0 := inv_of_moves hm0 hInv
    set s0 := (events.headD []).foldl Session.applyDisconnect s with hs0
    by_cases hle : s0.alivePlayers.length ≤ 1
    · rw [if_pos hle] at h
      injection h with h
      subst h
      rw [Multiset.coe_eq_coe.mpr (reverse_flatten_perm s0.finishGame.leaderboard)]
      rw [finishGame_partition hInv0, hm0.1]
    · rw [if_neg hle] at h
      cases htb : s0.tickBody cfg rand af c with
      | none => rw [htb] at h; exact Option.noConfusion h
      | some rc =>
        obtain ⟨s1, c1⟩ := rc
        simp only [htb] at h
        have hti := tickBody_inv htb
        have hti1 : s1.players.map (fun p => p.key) = s0.players.map (fun p => p.key) :=
          hti.1
        rw [ih events.tail s1 c1 wire (hti.2 hInv0) h, hti1, hm0.1]

theorem countP_flatten_eq_zero {k : String} (l : List (List String))
    (h : (l.flatten).count k = 0) : l.countP (fun pl => decide (k ∈ pl)) = 0 := by
  induction l with
  | nil => rfl
  | cons x l ih =>
    rw [List.flatten_cons, List.count_append] at h
    have hx : k ∉ x := List.count_eq_zero.mp (by omega)
    rw [List.countP_cons]
    simp only [decide_eq_true_eq, if_neg hx, add_zero]
    exact ih (by omega)

theorem countP_flatten_eq_one {k : String} (l : List (List String))
    (h : (l.flatten).count k = 1) : l.countP (fun pl => decide (k ∈ pl)) = 1 := by
  induction l with
  | nil => exact absurd h (by simp)
  | cons x l ih =>
    rw [List.flatten_cons, List.count_append] at h
    by_cases hx : k ∈ x
    · have h0 : (l.flatten).count k = 0 := by
        have := List.count_pos_iff.mpr hx
        omega
      rw [List.countP_cons]
      simp only [decide_eq_true_eq, if_pos hx, countP_flatten_eq_zero l h0]
    · rw [List.countP_cons]
      simp only [decide_eq_true_eq, if_neg hx, add_zero]
      exact ih (by simpa [List.count_eq_zero_of_not_mem hx] using h)

/-! ## Claim theorems -/

/-- C1.  The apple-eating commit step is broken: in `exApple`, the movement
phase records the popped tail `(2,5)` in `last_tail_piece` (leaving the
apple set untouched — `move` never removes the apple), the wall/self-cut/
collision phases pass the state through, and then `_handle_apple_eating`
executes `self.apples.remove(player.last_tail_piece)`, i.e. tries to remove
the *tail* position `(2,5)` from the apple set `{(6,5)}`, which raises
`KeyError` — so the whole movement tick raises instead of removing the apple
at the head and growing the snake to length 5. -/
theorem c1_apple_eating_raises :
    (do
      let sm ← exApple.updatePositions defaultCfg
      let s ← sm.1.handleWallDeaths defaultCfg
      let s ← s.handleTailSelfCutting
      let sc ← s.handleCollisionDeaths zeroRand 0
      pure (dictFind sc.1.players "a", sc.1.apples) : Option _) =
      some (some ⟨"a", "A", [(6,5),(5,5),(4,5),(3,5)], .RIGHT, some (2,5)⟩, [(6,5)]) ∧
    (do
      let sm ← exApple.updatePositions defaultCfg
      let s ← sm.1.handleWallDeaths defaultCfg
      let s ← s.handleTailSelfCutting
      let sc ← s.handleCollisionDeaths zeroRand 0
      sc.1.handleAppleEating zeroRand sc.2 : Option _) = none ∧
    Session.tickBody defaultCfg zeroRand 10 exApple 0 = none := by
  refine ⟨by decide, by decide, by decide⟩

/-- C3.  The `session_join` broadcast of `Session.connect` is mangled by
generator-expression variable shadowing: when `b` joins `exJoinWorld`'s
session, the already-present owner `a` receives a payload whose `player`
field is **`a` itself** and which **does** carry the full `players` list —
not, as the claim states, a payload carrying the new player `b` and no
`players` key. -/
theorem c3_session_join_broadcast_shadowed :
    (exJoinWorld.handleJoin "b" "TTTT" "B").map (fun r => r.2) =
      some
        [("a", .sessionJoin "TTTT" ⟨"a", "A", [], 1⟩ "a"
            (some [⟨"a", "A", [], 1⟩, ⟨"b", "B", [], 1⟩])),
         ("b", .sessionJoin "TTTT" ⟨"b", "B", [], 1⟩ "a"
            (some [⟨"a", "A", [], 1⟩, ⟨"b", "B", [], 1⟩]))] ∧
    ServerMsg.sessionJoin "TTTT" ⟨"a", "A", [], 1⟩ "a"
        (some [⟨"a", "A", [], 1⟩, ⟨"b", "B", [], 1⟩]) ≠
      ServerMsg.sessionJoin "TTTT" ⟨"b", "B", [], 1⟩ "a" none := by
  refine ⟨by decide, by decide⟩

/-- C4 counterexample.  With the defaults (40×30 grid, 4 chunks) and two
alive players, `_generate_player_chunks` puts the chunks at `y ∈
{13,14,15,16}` with the head at `y = 13` — not at `y ∈ {14,15,16,17}` with
the head at `y = 14` as the claim states. -/
theorem c4_claimed_layout_false :
    ((Session.generatePlayerChunks defaultCfg exStart).players.map
        (fun p => p.chunks.map Prod.snd)) =
      [[13, 14, 15, 16], [13, 14, 15, 16]] ∧
    ((Session.generatePlayerChunks defaultCfg exStart).players.map
        (fun p => p.chunks.map Prod.snd)) ≠
      [[14, 15, 16, 17], [14, 15, 16, 17]] ∧
    ((dictFind (Session.generatePlayerChunks defaultCfg exStart).players "a").map
        (fun p => p.chunks.head?)) = some (some (13, 13)) := by
  refine ⟨by decide, by decide, by decide⟩

/-- C4 amended.  On `start` with the default 40×30 grid, 4 initial chunks
and two alive players, player 1 is placed at `x = int(40/3·1) = 13` and
player 2 at `x = int(40/3·2) = 26`; each column of chunks spans
`y ∈ {13,14,15,16}` (the strip runs from `H//2 − C//2` up to but excluding
`H//2 + C//2 + C%2`, so an even chunk amount puts the extra cell *above*
`H//2 = 15`); each head is the topmost cell at `y = 13`; directions stay
`UP`. -/
theorem c4_initial_layout :
    (Session.generatePlayerChunks defaultCfg exStart).players =
      [⟨"a", "A", [(13,13),(13,14),(13,15),(13,16)], .UP, none⟩,
       ⟨"b", "B", [(26,13),(26,14),(26,15),(26,16)], .UP, none⟩] := by
  decide

/-- C5.  `handle_create_session` performs no detach: after connection `a`,
already the sole member of the not-running session `AAAA`, sends
`create_session`, its key sits in the `players` map of **two** registry
sessions (`AAAA` and the new `BBBB`), while its `session` field references
only `BBBB` — the at-most-one-session invariant fails. -/
theorem c5_create_session_keeps_old_membership :
    (exCreateWorld.handleCreateSession "a" "A" (fun _ => "BBBB")).map
      (fun r =>
        (r.1.sessions.countP (fun e => (e.2.players.map (fun p => p.key)).contains "a"),
         (r.1.findConn "a").map (fun c => c.session),
         (r.1.findSession "AAAA").map (fun s => (s.players.map (fun p => p.key)).contains "a"))) =
      some (2, some (some "BBBB"), some true) := by
  decide

/-- C2 counterexample.  A taken name does *not* always leave the connection
open: in `exTwoSessionWorld`, connection `a` — alive in the running
two-player session `PPPP` — sends `join {code: "TTTT", player_name: "C"}`.
The handler first detaches `a` from `PPPP`; that ends the game (one alive
player left), and `_finish_game`'s `session_end` path **closes `a`'s
connection** before the name check runs; the `player_name_already_taken`
rejection is then written to an already-closed connection. -/
theorem c2_name_taken_can_close_connection :
    (exTwoSessionWorld.handleJoin "a" "TTTT" "C").map
      (fun r => ((r.1.findConn "a").map (fun c => c.writerClosing), r.2.getLast?)) =
      some (some true, some ("a", .playerNameAlreadyTaken)) := by
  decide

/-- C7.  Joining a running session: the server replies `invalid_session
{exists: true}`, the world (registry, sessions, connections) is left
exactly as it was — in particular the joiner stays unattached and the
session's `players` map is unchanged — and `Session.connect` itself raises
for every caller while the session is running. -/
theorem c7_join_running_rejected (w : World) (connKey code name : String)
    (cn : Conn) (sess : Session)
    (hc : w.findConn connKey = some cn) (hs : w.findSession code = some sess)
    (hr : sess.running = true) :
    w.handleJoin connKey code name = some (w, [(connKey, .invalidSession true)]) ∧
    ∀ nm k, w.sessionConnect code k nm = none := by
  constructor
  · simp [World.handleJoin, hc, hs, hr]
  · intro nm k
    simp [World.sessionConnect, hs, hr]

/-- C7 witness: connection `c` tries to join the running session `PPPP` of
`exTwoSessionWorld`. -/
theorem c7_join_running_rejected_witness :
    exTwoSessionWorld.handleJoin "c" "PPPP" "X" =
      some (exTwoSessionWorld, [("c", .invalidSession true)]) ∧
    ∀ nm k, exTwoSessionWorld.sessionConnect "PPPP" k nm = none :=
  c7_join_running_rejected exTwoSessionWorld "c" "PPPP" "X"
    ⟨"c", some "TTTT", false⟩
    { code := "PPPP", ownerKey := "a",
      players := [⟨"a", "A", [(1,1),(1,2)], .UP, none⟩,
                  ⟨"b", "B", [(5,5),(5,6)], .UP, none⟩],
      alivePlayers := ["a", "b"], currentDeaths := [], leaderboard := [],
      apples := [], running := true, tick := 2 }
    (by decide) (by decide) (by decide)

/-- C9.  An `input` from an alive player of a running session with a wire
value in 1–4: when the decoded direction equals the player's current
direction or its opposite, the handler returns with the world unchanged and
sends nothing (the connection stays open); otherwise it only sets that
player's `direction` field (picked up at the next movement tick), again
sending nothing. -/
theorem c9_input_direction_rule (w : World) (connKey code : String) (v : Int)
    (cn : Conn) (sess : Session) (p : SessionPlayer) (d : Direction)
    (hc : w.findConn connKey = some cn) (hsn : cn.session = some code)
    (hs : w.findSession code = some sess) (hr : sess.running = true)
    (ha : connKey ∈ sess.alivePlayers) (hp : dictFind sess.players connKey = some p)
    (hd : Direction.ofValue v = some d) :
    w.handleInput connKey v =
      if d = p.direction ∨ d = p.direction.opposite then some (w, [])
      else
        some (w.setSession code
          { sess with players := (dictUpdate sess.players connKey
              (fun q => { q with direction := d })) }, []) := by
  simp only [World.handleInput, hc, hd, Option.bind_eq_bind, Option.some_bind]
  rw [hsn]
  simp only [hs, Option.some_bind, hr]
  simp [ha, hp]

/-- C9 witness: in `exTwoSessionWorld`, alive player `a` (direction UP) of
the running session `PPPP` sends `input {new_direction: 3}` (RIGHT). -/
theorem c9_input_direction_rule_witness :
    exTwoSessionWorld.handleInput "a" 3 =
      if Direction.RIGHT = Direction.UP ∨ Direction.RIGHT = Direction.UP.opposite
      then some (exTwoSessionWorld, [])
      else
        some (exTwoSessionWorld.setSession "PPPP"
          { code := "PPPP", ownerKey := "a",
            players := (dictUpdate
              [⟨"a", "A", [(1,1),(1,2)], .UP, none⟩, ⟨"b", "B", [(5,5),(5,6)], .UP, none⟩]
              "a" (fun q => { q with direction := .RIGHT })),
            alivePlayers := ["a", "b"], currentDeaths := [], leaderboard := [],
            apples := [], running := true, tick := 2 }, []) :=
  c9_input_direction_rule exTwoSessionWorld "a" "PPPP" 3
    ⟨"a", some "PPPP", false⟩
    { code := "PPPP", ownerKey := "a",
      players := [⟨"a", "A", [(1,1),(1,2)], .UP, none⟩, ⟨"b", "B", [(5,5),(5,6)], .UP, none⟩],
      alivePlayers := ["a", "b"], currentDeaths := [], leaderboard := [],
      apples := [], running := true, tick := 2 }
    ⟨"a", "A", [(1,1),(1,2)], .UP, none⟩ .RIGHT
    (by decide) (by decide) (by decide) (by decide) (by decide) (by decide) (by decide)

/-- C10.  An `input` whose `new_direction` lies outside 1–4, sent by a
player of a running session: `Direction(value)` raises `ValueError`, the
handler logs and calls `Connection.close` — so no rejection (or any other
advisory) message is sent, the writer ends up closed and the key is removed
from `App.connections`, exactly the outcome of a protocol violation, unlike
the equal/opposite case of C9 which leaves the connection open. -/
theorem c10_invalid_direction_closes (w : World) (ck code : String) (v : Int)
    (cn : Conn) (sess : Session)
    (hc : w.findConn ck = some cn) (hsn : cn.session = some code)
    (hs : w.findSession code = some sess) (hr : sess.running = true)
    (hkp : ck ∈ sess.players.map (fun p => p.key))
    (hv : ¬ (v = 1 ∨ v = 2 ∨ v = 3 ∨ v = 4))
    (hnd : w.connections.Nodup) :
    ∃ w' msgs, w.handleInput ck v = some (w', msgs) ∧
      (w'.findConn ck).map (fun c => c.writerClosing) = some true ∧
      ck ∉ w'.connections ∧
      ∀ m ∈ msgs, m.2.isRejection = false := by
  have h1 : v ≠ 1 := fun h => hv (Or.inl h)
  have h2 : v ≠ 2 := fun h => hv (Or.inr (Or.inl h))
  have h3 : v ≠ 3 := fun h => hv (Or.inr (Or.inr (Or.inl h)))
  have h4 : v ≠ 4 := fun h => hv (Or.inr (Or.inr (Or.inr h)))
  have hofv : Direction.ofValue v = none := by
    unfold Direction.ofValue
    rw [if_neg h1, if_neg h2, if_neg h3, if_neg h4]
  have hcontains : (sess.players.map (fun p => p.key)).contains ck = true := by
    simpa using hkp
  have hinput : w.handleInput ck v = w.closeConn ck := by
    unfold World.handleInput
    rw [hc]
    simp only [Option.some_bind, Option.bind_eq_bind]
    rw [hsn]
    simp only [hs, Option.some_bind, hr, hofv]
    simp
  rw [hinput]
  unfold World.closeConn
  rw [hc]
  simp only [Option.some_bind, Option.bind_eq_bind]
  rw [hsn]
  have hdisp : w.disconnect code ck = w.disconnectFromRunning code ck := by
    unfold World.disconnect
    rw [hs]
    simp [hr]
  simp only [hdisp]
  by_cases ha : ck ∈ sess.alivePlayers
  · obtain ⟨wd, m, hd, hA1, hA2, hA3, hA4, hA5, _⟩ :=
      disconnectFromRunning_alive w code ck sess cn hs hc ha hkp
    rw [hd]
    simp only [Option.some_bind]
    refine ⟨_, m, rfl, ?_, ?_, ?_⟩
    · rw [findConn_setConnections, findConn_setConnClosing_self]
      cases hwd : wd.findConn ck with
      | none => rw [hwd] at hA1; exact absurd hA1 (by simp)
      | some c' => simp
    · show ck ∉ ((wd.setConnClosing ck).connections).erase ck
      rw [setConnClosing_connections]
      exact nodup_not_mem_erase ck wd.connections (List.Nodup.sublist hA3 hnd)
    · exact hA5
  · have hwarn : w.disconnectFromRunning code ck = some (w, []) := by
      unfold World.disconnectFromRunning
      rw [hs]
      simp only [Option.some_bind, Option.bind_eq_bind]
      rw [if_pos (by simpa using ha), if_pos hcontains]
    rw [hwarn]
    simp only [Option.some_bind]
    refine ⟨_, [], rfl, ?_, ?_, ?_⟩
    · rw [findConn_setConnections, findConn_setConnClosing_self, hc]
      rfl
    · show ck ∉ ((w.setConnClosing ck).connections).erase ck
      rw [setConnClosing_connections]
      exact nodup_not_mem_erase ck w.connections hnd
    · intro m hm
      simp at hm

/-- C8.  `Connection.close` is idempotent: once a close has completed —
yielding world `w1` — running close again neither changes the connection,
nor the session it was detached from, nor `App.connections`, and sends
nothing; in particular the session `disconnect` work (removing the player,
broadcasting `session_leave`, finishing the game) is not repeated, because
the first close left the connection's `session` attribute `None` (or, for a
player already dead in a running session, the repeated `disconnect` is the
logged no-op).  The well-formedness hypotheses say that `App.connections`
holds no duplicate keys and that every session's `alive_players` keys occur
in its `players`. -/
theorem c8_close_idempotent (w : World) (k : String) (w1 : World)
    (m1 : List (String × ServerMsg))
    (hnd : w.connections.Nodup)
    (halive : ∀ e ∈ w.sessions, ∀ k', k' ∈ e.2.alivePlayers →
      k' ∈ e.2.players.map (fun p => p.key))
    (hcl : w.closeConn k = some (w1, m1)) :
    w1.closeConn k = some (w1, []) := by
  unfold World.closeConn at hcl
  cases hfc : w.findConn k with
  | none => rw [hfc] at hcl; exact absurd hcl (by simp)
  | some cn =>
    rw [hfc] at hcl
    simp only [Option.some_bind, Option.bind_eq_bind] at hcl
    -- a helper finishing the proof once the post-close world is known to have
    -- a closed writer, an erased registry entry and a disconnect-free restart
    have finish_none : ∀ (wd : World) (cnd : Conn),
        wd.findConn k = some cnd → cnd.session = none →
        wd.connections.Nodup →
        (({ wd.setConnClosing k with
            connections := (wd.setConnClosing k).connections.erase k } : World).closeConn k) =
          some ({ wd.setConnClosing k with
            connections := (wd.setConnClosing k).connections.erase k }, []) := by
      intro wd cnd hfcd hsnd hndd
      unfold World.closeConn
      have hfc1 : ({ wd.setConnClosing k with
          connections := (wd.setConnClosing k).connections.erase k } : World).findConn k =
          some { cnd with writerClosing := true } := by
        rw [findConn_setConnections, findConn_setConnClosing_self, hfcd]
        rfl
      rw [hfc1]
      simp only [Option.some_bind, Option.bind_eq_bind]
      rw [show ({ cnd with writerClosing := true } : Conn).session = cnd.session from rfl]
      rw [hsnd]
      simp only [Option.some_bind]
      rw [setConnClosing_absorb]
      have hconn : ((wd.setConnClosing k).connections.erase k).erase k =
          (wd.setConnClosing k).connections.erase k := by
        rw [setConnClosing_connections]
        exact List.erase_of_not_mem (nodup_not_mem_erase k wd.connections hndd)
      rw [show ({ wd.setConnClosing k with
          connections := (wd.setConnClosing k).connections.erase k } : World).connections =
        (wd.setConnClosing k).connections.erase k from rfl]
      rw [hconn]
    cases hsn : cn.session with
    | none =>
      rw [hsn] at hcl
      simp only [Option.some_bind] at hcl
      have hw1 : w1 = { w.setConnClosing k with
          connections := (w.setConnClosing k).connections.erase k } := by
        have := (Prod.mk.injEq _ _ _ _).mp (Option.some.inj hcl)
        exact this.1.symm
      rw [hw1]
      exact finish_none w cn hfc hsn hnd
    | some code =>
      rw [hsn] at hcl
      simp only [Option.bind_eq_bind] at hcl
      cases hd : w.disconnect code k with
      | none => rw [hd] at hcl; exact absurd hcl (by simp)
      | some r =>
        rw [hd] at hcl
        simp only [Option.some_bind] at hcl
        have hw1 : w1 = { r.1.setConnClosing k with
            connections := (r.1.setConnClosing k).connections.erase k } := by
          have := (Prod.mk.injEq _ _ _ _).mp (Option.some.inj hcl)
          exact this.1.symm
        -- analyse the disconnect that ran during the first close
        unfold World.disconnect at hd
        cases hfs : w.findSession code with
        | none => rw [hfs] at hd; exact absurd hd (by simp)
        | some sess =>
          rw [hfs] at hd
          simp only [Option.some_bind, Option.bind_eq_bind] at hd
          cases hrun : sess.running with
          | true =>
            rw [hrun] at hd
            rw [if_pos rfl] at hd
            by_cases ha : k ∈ sess.alivePlayers
            · have hkp : k ∈ sess.players.map (fun p => p.key) := by
                have hmem := List.mem_of_find?_eq_some
                  (show w.sessions.find? (fun e => e.1 == code) =
                    some ((w.sessions.find? (fun e => e.1 == code)).getD (code, sess)) from ?_)
                · have hget : ((w.sessions.find? (fun e => e.1 == code)).getD (code, sess)).2 =
                      sess := by
                    unfold World.findSession at hfs
                    cases hq : w.sessions.find? (fun e => e.1 == code) with
                    | none => rw [hq] at hfs; exact absurd hfs (by simp)
                    | some e => rw [hq] at hfs; simpa using hfs
                  have := halive _ hmem k (by rw [hget]; exact ha)
                  rw [hget] at this
                  exact this
                · unfold World.findSession at hfs
                  cases hq : w.sessions.find? (fun e => e.1 == code) with
                  | none => rw [hq] at hfs; exact absurd hfs (by simp)
                  | some e => simp [hq]
              obtain ⟨wd, md, hdd, hA1, hA2, hA3, hA4, hA5, _⟩ :=
                disconnectFromRunning_alive w code k sess cn hfs hfc ha hkp
              rw [hdd] at hd
              have hr1 : r = (wd, md) := by simpa using hd.symm
              cases hwdf : wd.findConn k with
              | none => rw [hwdf] at hA1; exact absurd hA1 (by simp)
              | some cnd =>
                have hsnd : cnd.session = none := by
                  rw [hwdf] at hA1; simpa using hA1
                rw [hw1, hr1]
                exact finish_none wd cnd hwdf hsnd (List.Nodup.sublist hA3 hnd)
            · by_cases hp : (sess.players.map (fun p => p.key)).contains k = true
              · have hwarn : w.disconnectFromRunning code k = some (w, []) := by
                  unfold World.disconnectFromRunning
                  rw [hfs]
                  simp only [Option.some_bind, Option.bind_eq_bind]
                  rw [if_pos (by simpa using ha), if_pos hp]
                rw [hwarn] at hd
                have hr1 : r = (w, []) := by simpa using hd.symm
                rw [hw1, hr1]
                -- the session attribute is still set: the repeated disconnect
                -- is the logged no-op of `_disconnect_from_running`
                unfold World.closeConn
                have hfc1 : ({ w.setConnClosing k with
                    connections := (w.setConnClosing k).connections.erase k } : World).findConn k =
                    some { cn with writerClosing := true } := by
                  rw [findConn_setConnections, findConn_setConnClosing_self, hfc]
                  rfl
                rw [hfc1]
                simp only [Option.some_bind, Option.bind_eq_bind]
                rw [show ({ cn with writerClosing := true } : Conn).session = cn.session from rfl]
                rw [hsn]
                have hfs1 : ({ w.setConnClosing k with
                    connections := (w.setConnClosing k).connections.erase k } : World).findSession code =
                    some sess :=
                  (findSession_of_sessions_eq _ w code rfl).trans hfs
                have hdisc1 : ({ w.setConnClosing k with
                    connections := (w.setConnClosing k).connections.erase k } : World).disconnect code k =
                    some ({ w.setConnClosing k with
                      connections := (w.setConnClosing k).connections.erase k }, []) := by
                  unfold World.disconnect
                  rw [hfs1]
                  simp only [Option.some_bind, Option.bind_eq_bind, hrun, if_pos rfl]
                  unfold World.disconnectFromRunning
                  rw [hfs1]
                  simp only [Option.some_bind, Option.bind_eq_bind]
                  rw [if_pos ha, if_pos hp]
                  try rfl
                simp only [hdisc1, Option.some_bind]
                rw [setConnClosing_absorb]
                have hconn : ((w.setConnClosing k).connections.erase k).erase k =
                    (w.setConnClosing k).connections.erase k := by
                  rw [setConnClosing_connections]
                  exact List.erase_of_not_mem (nodup_not_mem_erase k w.connections hnd)
                rw [show ({ w.setConnClosing k with
                    connections := (w.setConnClosing k).connections.erase k } : World).connections =
                  (w.setConnClosing k).connections.erase k from rfl]
                rw [hconn]
              · have hnone : w.disconnectFromRunning code k = none := by
                  unfold World.disconnectFromRunning
                  rw [hfs]
                  simp only [Option.some_bind, Option.bind_eq_bind]
                  rw [if_pos ha, if_neg hp]
                rw [hnone] at hd
                exact absurd hd (by simp)
          | false =>
            rw [hrun] at hd
            rw [if_neg (by simp)] at hd
            by_cases hp : (sess.players.map (fun p => p.key)).contains k = true
            · by_cases ha : k ∈ sess.alivePlayers
              · obtain ⟨wd, md, hdd, hB1, hB2, hB3, hB4, hB5, hB6⟩ :=
                  disconnectFromNotRunning_spec w code k sess cn hfs hfc hp ha
                rw [hdd] at hd
                have hr1 : r = (wd, md) := by simpa using hd.symm
                cases hwdf : wd.findConn k with
                | none => rw [hwdf] at hB1; exact absurd hB1 (by simp)
                | some cnd =>
                  have hsnd : cnd.session = none := by
                    rw [hwdf] at hB1; simpa using hB1
                  rw [hw1, hr1]
                  exact finish_none wd cnd hwdf hsnd (by rw [hB3]; exact hnd)
              · have hnone : w.disconnectFromNotRunning code k = none := by
                  unfold World.disconnectFromNotRunning
                  rw [hfs]
                  simp only [Option.some_bind, Option.bind_eq_bind]
                  rw [if_neg (not_not_intro hp), if_pos ha]
                rw [hnone] at hd
                exact absurd hd (by simp)
            · have hnone : w.disconnectFromNotRunning code k = none := by
                unfold World.disconnectFromNotRunning
                rw [hfs]
                simp only [Option.some_bind, Option.bind_eq_bind]
                rw [if_pos hp]
              rw [hnone] at hd
              exact absurd hd (by simp)

/-- C8 witness: closing connection `b` of `exTwoSessionWorld` (which ends
the running session `PPPP`) and closing it again. -/
theorem c8_close_idempotent_witness :
    ∃ w1 m1, exTwoSessionWorld.closeConn "b" = some (w1, m1) ∧
      w1.closeConn "b" = some (w1, []) := by
  cases hcl : exTwoSessionWorld.closeConn "b" with
  | none => exact absurd hcl (by decide)
  | some r =>
    exact ⟨r.1, r.2, rfl,
      c8_close_idempotent exTwoSessionWorld "b" r.1 r.2 (by decide) (by decide)
        (hcl.trans rfl)⟩

/-- C10 witness: alive player `a` of the running session `PPPP` in
`exTwoSessionWorld` sends `input {new_direction: 5}`. -/
theorem c10_invalid_direction_closes_witness :
    ∃ w' msgs, exTwoSessionWorld.handleInput "a" 5 = some (w', msgs) ∧
      (w'.findConn "a").map (fun c => c.writerClosing) = some true ∧
      "a" ∉ w'.connections ∧
      ∀ m ∈ msgs, m.2.isRejection = false :=
  c10_invalid_direction_closes exTwoSessionWorld "a" "PPPP" 5
    ⟨"a", some "PPPP", false⟩
    { code := "PPPP", ownerKey := "a",
      players := [⟨"a", "A", [(1,1),(1,2)], .UP, none⟩, ⟨"b", "B", [(5,5),(5,6)], .UP, none⟩],
      alivePlayers := ["a", "b"], currentDeaths := [], leaderboard := [],
      apples := [], running := true, tick := 2 }
    (by decide) (by decide) (by decide) (by decide) (by decide) (by decide) (by decide)

/-- C6.  For every started session that satisfies the bookkeeping invariant
(the multiset of admitted player keys equals alive + pending deaths + keys
already placed, which holds in particular for a freshly started session
where `current_deaths` and `leaderboard` are empty and `alive_players`
matches `players`), if the game loop terminates via `_finish_game` then the
final wire leaderboard partitions the admitted players: its places, taken
together, contain exactly the multiset of admitted keys, and — when the
admitted keys are distinct — every admitted player appears in exactly one
place.  The per-flush sorting/grouping order and the final flush of the
remaining alive players are embodied in `Session.updateLeaderboard` and
`Session.finishGame`, over which the theorem is proved. -/
theorem c6_leaderboard_partition (cfg : AppCfg) (rand : Nat → Nat) (af fuel : Nat)
    (events : List (List String)) (s : Session) (c : Nat)
    (wire : List (List String))
    (hInv : s.Inv) (hnd : (s.players.map (fun p => p.key)).Nodup)
    (hrun : Session.runGame cfg rand af fuel events s c = some wire) :
    ((wire.flatten : List String) : Multiset String) =
      ((s.players.map (fun p => p.key) : List String) : Multiset String) ∧
    ∀ k ∈ s.players.map (fun p => p.key),
      wire.countP (fun pl => decide (k ∈ pl)) = 1 := by
  have hmain := runGame_partition cfg rand af fuel events s c wire hInv hrun
  refine ⟨hmain, ?_⟩
  intro k hk
  refine countP_flatten_eq_one wire ?_
  have hc : (wire.flatten).count k = (s.players.map (fun p => p.key)).count k := by
    have h2 := congrArg (Multiset.count k) hmain
    simpa [Multiset.coe_count] using h2
  rw [hc]
  exact List.count_eq_one_of_mem hnd hk

/-- Witness for C6: in `exApple`, player `b` disconnects before the first
tick, the game finishes with `a` the lone survivor, and the wire leaderboard
`[[a], [b]]` contains each of the two admitted players exactly once. -/
theorem c6_leaderboard_partition_witness :
    (([["a"], ["b"]].flatten : List String) : Multiset String) =
      ((exApple.players.map (fun p => p.key) : List String) : Multiset String) ∧
    ∀ k ∈ exApple.players.map (fun p => p.key),
      [["a"], ["b"]].countP (fun pl => decide (k ∈ pl)) = 1 :=
  c6_leaderboard_partition defaultCfg zeroRand 10 3 [["b"]] exApple 0 [["a"], ["b"]]
    (by unfold Session.Inv Session.accounted; decide) (by decide) (by decide)

/-- C2 (amended).  For a `join` whose code names an existing, not-running
session, *provided the detach from the joining connection's previous session
(if any) does not cascade into closing connections* — i.e. the connection has
no previous session, or the previous session is the target itself, or the
leaver is alive in its previous session and that session is either not
running (with the leaver among its players) or running with more than two
alive players: if the requested name is taken, the server replies
`player_name_already_taken` after the detach messages (none of which is a
rejection), every connection's writer state is unchanged (the connection
stays open) and the target session is unchanged; if the name is free, the
player is attached — the target session becomes `joinedSession` (the player
added to `players` and `alive_players`), the connection's `session` field
points at the target — and the `session_join` broadcast follows the detach
messages. -/
theorem c2_join_validation (w : World) (connKey code name : String) (cn : Conn)
    (sess : Session)
    (hc : w.findConn connKey = some cn)
    (hs : w.findSession code = some sess)
    (hnr : sess.running = false)
    (hprev : cn.session = none ∨ cn.session = some code ∨
      (∃ prev sessp, cn.session = some prev ∧ prev ≠ code ∧
        w.findSession prev = some sessp ∧ connKey ∈ sessp.alivePlayers ∧
        ((sessp.running = false ∧
            (sessp.players.map (fun p => p.key)).contains connKey = true) ∨
         (sessp.running = true ∧ connKey ∈ sessp.players.map (fun p => p.key) ∧
            1 < (sessp.alivePlayers.erase connKey).length)))) :
    ∃ wd m1,
      wd.findSession code = some sess ∧
      wd.connections = w.connections ∧
      (∀ k', (wd.findConn k').map (fun c => c.writerClosing) =
        (w.findConn k').map (fun c => c.writerClosing)) ∧
      (∀ m' ∈ m1, m'.2.isRejection = false) ∧
      (sess.isNameTaken name = true →
        w.handleJoin connKey code name =
          some (wd, m1 ++ [(connKey, ServerMsg.playerNameAlreadyTaken)])) ∧
      (sess.isNameTaken name = false →
        w.handleJoin connKey code name =
          some ((wd.setConnSession connKey (some code)).setSession code
              (joinedSession sess connKey name),
            m1 ++ (joinedSession sess connKey name).players.map
              (fun p => sendSessionJoin p.key (joinedSession sess connKey name) p)) ∧
        ((wd.setConnSession connKey (some code)).setSession code
            (joinedSession sess connKey name)).findSession code =
          some (joinedSession sess connKey name) ∧
        (((wd.setConnSession connKey (some code)).setSession code
            (joinedSession sess connKey name)).findConn connKey).map
          (fun c => c.session) = some (some code)) := by
  have hcase : ∃ wd m1, (match cn.session with
      | some prev =>
        if prev ≠ code then w.disconnect prev connKey
        else some (w, ([] : List (String × ServerMsg)))
      | none => some (w, ([] : List (String × ServerMsg)))) = some (wd, m1) ∧
      wd.findSession code = some sess ∧
      wd.connections = w.connections ∧
      (∀ k', (wd.findConn k').map (fun c => c.writerClosing) =
        (w.findConn k').map (fun c => c.writerClosing)) ∧
      (∀ m' ∈ m1, m'.2.isRejection = false) ∧
      (∃ cnd, wd.findConn connKey = some cnd) := by
    rcases hprev with hsn | hsn | ⟨prev, sessp, hsn, hne, hsp, halive, hkind⟩
    · refine ⟨w, [], ?_, hs, rfl, fun k' => rfl, by simp, ⟨cn, hc⟩⟩
      simp only [hsn]
    · refine ⟨w, [], ?_, hs, rfl, fun k' => rfl, by simp, ⟨cn, hc⟩⟩
      simp only [hsn]
      rw [if_neg (by simp)]
    · rcases hkind with ⟨hrun, hcont⟩ | ⟨hrun, hmem, hgt⟩
      · obtain ⟨wd, m, heq, hnone, hkeys, hconnections, hfsne, hmsgs, hclosing⟩ :=
          disconnectFromNotRunning_spec w prev connKey sessp cn hsp hc hcont halive
        refine ⟨wd, m, ?_, (hfsne code (Ne.symm hne)).trans hs, hconnections,
          hclosing, hmsgs, ?_⟩
        · simp only [hsn]
          rw [if_pos hne]
          unfold World.disconnect
          simp only [hsp, Option.bind_eq_bind, Option.some_bind]
          rw [if_neg (by simp [hrun])]
          exact heq
        · have hiso := findConn_isSome_keys w wd connKey hkeys
          rw [hc] at hiso
          cases hcd : wd.findConn connKey with
          | none => rw [hcd] at hiso; exact absurd hiso (by simp)
          | some cnd => exact ⟨cnd, rfl⟩
      · obtain ⟨wd, m, heq, hnone, hkeys, hsub, hfsne, hmsgs, hnocascade⟩ :=
          disconnectFromRunning_alive w prev connKey sessp cn hsp hc halive hmem
        refine ⟨wd, m, ?_, (hfsne code (Ne.symm hne)).trans hs, (hnocascade hgt).1,
          (hnocascade hgt).2, hmsgs, ?_⟩
        · simp only [hsn]
          rw [if_pos hne]
          unfold World.disconnect
          simp only [hsp, Option.bind_eq_bind, Option.some_bind]
          rw [if_pos hrun]
          exact heq
        · have hiso := findConn_isSome_keys w wd connKey hkeys
          rw [hc] at hiso
          cases hcd : wd.findConn connKey with
          | none => rw [hcd] at hiso; exact absurd hiso (by simp)
          | some cnd => exact ⟨cnd, rfl⟩
  obtain ⟨wd, m1, hdet, hwdfs, hwdconn, hclos, hm1, cnd, hcnd⟩ := hcase
  refine ⟨wd, m1, hwdfs, hwdconn, hclos, hm1, ?_, ?_⟩
  · intro htaken
    rw [handleJoin_detach w connKey code name cn sess wd m1 hc hs hnr hdet]
    rw [hwdfs]
    simp only [Option.some_bind]
    rw [if_pos htaken]
  · intro hfree
    have h2find : (wd.setConnSession connKey (some code)).findSession code = some sess := by
      rw [findSession_of_sessions_eq _ wd code (setConnSession_sessions wd connKey (some code))]
      exact hwdfs
    have hconnect : (wd.setConnSession connKey (some code)).sessionConnect
        code connKey name =
        some ((wd.setConnSession connKey (some code)).setSession code
            (joinedSession sess connKey name),
          (joinedSession sess connKey name).players.map
            (fun p => sendSessionJoin p.key (joinedSession sess connKey name) p)) := by
      unfold World.sessionConnect
      simp only [h2find, Option.bind_eq_bind, Option.some_bind]
      rw [if_neg (by simp [hnr])]
      rfl
    refine ⟨?_, ?_, ?_⟩
    · rw [handleJoin_detach w connKey code name cn sess wd m1 hc hs hnr hdet]
      rw [hwdfs]
      simp only [Option.some_bind]
      rw [if_neg (by simp [hfree])]
      rw [hconnect]
      simp only [Option.some_bind]
    · exact findSession_setSession_self _ code _ sess h2find
    · rw [findConn_setSession, findConn_setConnSession_self, hcnd]
      rfl

/-- Witness for C2 (amended): in `exJoinWorld`, the unattached connection `b`
joins the not-running session `TTTT`; the name "A" is taken (rejection, all
writers untouched, session unchanged) while the name "B" is free (the player
is attached and the shadowed `session_join` broadcast follows). -/
theorem c2_join_validation_witness :
    (∃ wd m1,
      wd.findSession "TTTT" = some exJoinSess ∧
      wd.connections = exJoinWorld.connections ∧
      (∀ k', (wd.findConn k').map (fun c => c.writerClosing) =
        (exJoinWorld.findConn k').map (fun c => c.writerClosing)) ∧
      (∀ m' ∈ m1, m'.2.isRejection = false) ∧
      (exJoinSess.isNameTaken "B" = true →
        exJoinWorld.handleJoin "b" "TTTT" "B" =
          some (wd, m1 ++ [("b", ServerMsg.playerNameAlreadyTaken)])) ∧
      (exJoinSess.isNameTaken "B" = false →
        exJoinWorld.handleJoin "b" "TTTT" "B" =
          some ((wd.setConnSession "b" (some "TTTT")).setSession "TTTT"
              (joinedSession exJoinSess "b" "B"),
            m1 ++ (joinedSession exJoinSess "b" "B").players.map
              (fun p => sendSessionJoin p.key (joinedSession exJoinSess "b" "B") p)) ∧
        ((wd.setConnSession "b" (some "TTTT")).setSession "TTTT"
            (joinedSession exJoinSess "b" "B")).findSession "TTTT" =
          some (joinedSession exJoinSess "b" "B") ∧
        (((wd.setConnSession "b" (some "TTTT")).setSession "TTTT"
            (joinedSession exJoinSess "b" "B")).findConn "b").map
          (fun c => c.session) = some (some "TTTT"))) :=
  c2_join_validation exJoinWorld "b" "TTTT" "B" ⟨"b", none, false⟩ exJoinSess
    (by decide) (by decide) (by decide) (Or.inl (by decide))

end Snake
